import Mathlib

/-!
Verification development for the UsenetStreamer streaming-catalog adapter.

Shallow embedding of the JavaScript source into Lean 4.  Each definition
mirrors one function of the source (file and symbol named in its doc
comment); machine numbers are modelled as `Int`/`Nat`, JavaScript
`null`/`undefined` as `Option`, and JavaScript strings as Lean `String`
processed at the `List Char` level so that every definition evaluates by
`decide`/`rfl`.  JavaScript regular expressions are translated to explicit
character-list scanners.  Unicode-aware pieces of JavaScript (`trim`,
`\s`, `toLowerCase`) are modelled on their ASCII behaviour, which is the
range exercised by every theorem below.
-/

namespace JsStr

/-- ASCII lower-casing of a string, modelling `String.prototype.toLowerCase`
for the ASCII range (`Char.toLower` maps exactly `A`-`Z`). -/
def lower (s : String) : String := ⟨s.data.map Char.toLower⟩

/-- JavaScript word character class `\w` = `[A-Za-z0-9_]`. -/
def isWordChar (c : Char) : Bool :=
  ('a' ≤ c && c ≤ 'z') || ('A' ≤ c && c ≤ 'Z') || ('0' ≤ c && c ≤ '9') || c = '_'

/-- Whitespace as matched by JavaScript `\s` / consumed by `trim`
(ASCII fragment). -/
def isWs (c : Char) : Bool := c.isWhitespace

/-- `String.prototype.trim` on the character list. -/
def trimList (l : List Char) : List Char :=
  ((l.dropWhile isWs).reverse.dropWhile isWs).reverse

/-- `String.prototype.trim`. -/
def trim (s : String) : String := ⟨trimList s.data⟩

/-- Decidable `String.prototype.startsWith`. -/
def startsWith (s pre : String) : Bool := pre.data.isPrefixOf s.data

/-- Substring containment (`String.prototype.includes`). -/
def containsSub (hay pat : List Char) : Bool :=
  hay.tails.any (fun t => pat.isPrefixOf t)

/-- `String.prototype.includes`. -/
def includes (s pat : String) : Bool := containsSub s.data pat.data

/-- Does `pat` occur in `hay` at a position whose predecessor satisfies the
requested left boundary and whose successor satisfies the requested right
boundary?  `bStart`/`bEnd` select the regex word-boundary `\b` on each side
(`\b` next to a word character holds when the adjacent character is absent
or not a word character). -/
def occursWithBoundary (pat : List Char) (bStart bEnd : Bool) :
    Option Char → List Char → Bool
  | prev, hay =>
    let okLeft : Bool := !bStart || (match prev with
      | none => true
      | some c => !isWordChar c)
    let okRight : Bool := !bEnd || (match hay.drop pat.length with
      | [] => true
      | c :: _ => !isWordChar c)
    if okLeft && pat.isPrefixOf hay && okRight then true
    else
      match hay with
      | [] => false
      | c :: rest => occursWithBoundary pat bStart bEnd (some c) rest

/-- Case-insensitive test of one regex alternative `tok` (with optional `\b`
on each side) against a title. -/
def testToken (title : String) (tok : String) (bStart bEnd : Bool) : Bool :=
  occursWithBoundary tok.data bStart bEnd none (lower title).data

/-- Replace every maximal run of characters satisfying `p` by a single
space (JavaScript `replace(/[class]+/g, ' ')`); `inRun` records whether the
previous character was part of a run already rewritten. -/
def replaceRunsAux (p : Char → Bool) : Bool → List Char → List Char
  | _, [] => []
  | inRun, c :: rest =>
    if p c then
      if inRun then replaceRunsAux p true rest
      else ' ' :: replaceRunsAux p true rest
    else c :: replaceRunsAux p false rest

def replaceRuns (p : Char → Bool) (l : List Char) : List Char :=
  replaceRunsAux p false l

/-- JavaScript `replace(/\s{2,}/g, ' ')`: runs of at least two whitespace
characters collapse to one space, single whitespace characters stay. -/
def collapseWsAux : Bool → List Char → List Char
  | _, [] => []
  | inRun, c :: rest =>
    if isWs c then
      if inRun then collapseWsAux true rest
      else
        match rest with
        | [] => [c]
        | d :: _ =>
          if isWs d then ' ' :: collapseWsAux true rest
          else c :: collapseWsAux false rest
    else c :: collapseWsAux false rest

def collapseWs (l : List Char) : List Char := collapseWsAux false l

/-- JavaScript `split(sep)` for a one-character separator (empty fields are
kept, as `String.prototype.split` does). -/
def splitChar (sep : Char) : List Char → List (List Char)
  | [] => [[]]
  | c :: rest =>
    let r := splitChar sep rest
    if c = sep then [] :: r
    else
      match r with
      | h :: t => (c :: h) :: t
      | [] => [[c]]

/-- Digit-string to number, the exact-arithmetic model of
`Number.parseInt(s, 10)` on an all-digit string. -/
def digitsToNat (l : List Char) : Nat :=
  l.foldl (fun acc c => acc * 10 + (c.toNat - 48)) 0

end JsStr

namespace Parsers

open JsStr

/-- `src/utils/parsers.js`: `normalizeReleaseTitle`.  Stages mirror the
chained `replace` calls: strip a trailing `.nzb`/`.zip`, `[._-]+ → ' '`,
`['"`]+ → ' '`, each bracket character to a space, `[^a-z0-9\s]+ → ' '`
(case-insensitive), collapse `\s{2,}` to one space, trim, lower-case. -/
def stripNzbZipSuffix (l : List Char) : List Char :=
  let low := l.map Char.toLower
  if ("." ++ "nzb").data.isSuffixOf low || (".zip").data.isSuffixOf low then
    l.take (l.length - 4)
  else l

def isDotUnderscoreDash (c : Char) : Bool := c = '.' || c = '_' || c = '-'

def isQuoteChar (c : Char) : Bool := c = '\'' || c = '"' || c = '`'

def isBracketChar (c : Char) : Bool :=
  c = '(' || c = ')' || c = '[' || c = ']' || c = '{' || c = '}'

def isAsciiAlphanumCI (c : Char) : Bool :=
  ('a' ≤ c && c ≤ 'z') || ('A' ≤ c && c ≤ 'Z') || ('0' ≤ c && c ≤ '9')

def normalizeReleaseTitle (title : String) : String :=
  let raw := trimList title.data
  if raw = [] then ""
  else
    let w0 := stripNzbZipSuffix raw
    let w1 := replaceRuns isDotUnderscoreDash w0
    let w2 := replaceRuns isQuoteChar w1
    let w3 := w2.map (fun c => if isBracketChar c then ' ' else c)
    let w4 := replaceRuns (fun c => !(isAsciiAlphanumCI c || isWs c)) w3
    let w5 := collapseWs w4
    ⟨(trimList w5).map Char.toLower⟩

end Parsers

namespace Dedupe

open JsStr Parsers

/-- `src/unnamed/part_002`: `MS_PER_DAY = 24 * 60 * 60 * 1000`. -/
def MS_PER_DAY : Int := 24 * 60 * 60 * 1000

/-- `src/server.js:50`: `DEDUPE_MAX_PUBLISH_DIFF_DAYS = 14`. -/
def DEDUPE_MAX_PUBLISH_DIFF_DAYS : Int := 14

/-- `src/unnamed/part_002`: `areReleasesWithinDays(referenceMs, candidateMs,
days)`.  A non-finite millisecond value (JavaScript `null`/`NaN`) is `none`
and makes the test succeed, as does a non-positive `days`. -/
def areReleasesWithinDays (referenceMs candidateMs : Option Int) (days : Int) : Bool :=
  if days ≤ 0 then true
  else
    match referenceMs, candidateMs with
    | some r, some c => |r - c| ≤ days * MS_PER_DAY
    | _, _ => true

/-- One release as seen by `dedupeResultsByTitle` (`src/server.js`).
`publishDateMs` is the value extracted by `getPublishMetadataFromResult`
(`none` when no publish instant parses; the extractor also maps the falsy
instant `0` to `null`); `paid` is `isResultFromPaidIndexer(result)`. -/
structure Release where
  title : String
  publishDateMs : Option Int
  paid : Bool
deriving DecidableEq, Repr

/-- Bucket entry of `dedupeResultsByTitle`. -/
structure DedupeEntry where
  publishDateMs : Option Int
  isPaid : Bool
  result : Release
  listIndex : Nat
deriving DecidableEq, Repr

structure DedupeState where
  buckets : List (String × List DedupeEntry)
  deduped : List Release
deriving DecidableEq, Repr

def bucketsGet (buckets : List (String × List DedupeEntry)) (key : String) :
    Option (List DedupeEntry) :=
  match buckets with
  | [] => none
  | (k, v) :: rest => if k = key then some v else bucketsGet rest key

def bucketsSet (buckets : List (String × List DedupeEntry)) (key : String)
    (v : List DedupeEntry) : List (String × List DedupeEntry) :=
  match buckets with
  | [] => [(key, v)]
  | (k, w) :: rest =>
    if k = key then (k, v) :: rest else (k, w) :: bucketsSet rest key v

/-- The `for (const entry of bucket)` scan: first entry within the publish
window of the candidate, with its position. -/
def findWithinIdx (candidatePublish : Option Int) :
    List DedupeEntry → Nat → Option (Nat × DedupeEntry)
  | [], _ => none
  | e :: rest, i =>
    if areReleasesWithinDays e.publishDateMs candidatePublish DEDUPE_MAX_PUBLISH_DIFF_DAYS then
      some (i, e)
    else findWithinIdx candidatePublish rest (i + 1)

/-- Body of the `for (const result of results)` loop of
`dedupeResultsByTitle` (`src/server.js:484-551`). -/
def dedupeStep (st : DedupeState) (result : Release) : DedupeState :=
  let normalizedTitle := normalizeReleaseTitle result.title
  if normalizedTitle = "" then
    { st with deduped := st.deduped ++ [result] }
  else
    let bucket := (bucketsGet st.buckets normalizedTitle).getD []
    let candidatePublish := result.publishDateMs
    let candidateIsPaid := result.paid
    match findWithinIdx candidatePublish bucket 0 with
    | none =>
      let entry : DedupeEntry :=
        ⟨candidatePublish, candidateIsPaid, result, st.deduped.length⟩
      { buckets := bucketsSet st.buckets normalizedTitle (bucket ++ [entry]),
        deduped := st.deduped ++ [result] }
    | some (i, matched) =>
      if candidateIsPaid && !matched.isPaid then
        let entry' : DedupeEntry :=
          { matched with isPaid := true, publishDateMs := candidatePublish, result := result }
        { buckets := bucketsSet st.buckets normalizedTitle (bucket.set i entry'),
          deduped := st.deduped.set matched.listIndex result }
      else if candidateIsPaid = matched.isPaid then
        match candidatePublish with
        | some cp =>
          if (match matched.publishDateMs with
              | none => true
              | some ep => ep < cp) then
            let entry' : DedupeEntry :=
              { matched with publishDateMs := candidatePublish, result := result }
            { buckets := bucketsSet st.buckets normalizedTitle (bucket.set i entry'),
              deduped := st.deduped.set matched.listIndex result }
          else st
        | none => st
      else st

/-- `src/server.js:484-551`: `dedupeResultsByTitle`. -/
def dedupeResultsByTitle (results : List Release) : List Release :=
  (results.foldl dedupeStep ⟨[], []⟩).deduped

end Dedupe

example :
    Parsers.normalizeReleaseTitle "Movie.2023.1080p-GRP" = "movie 2023 1080p grp" := by
  decide

example :
    Parsers.normalizeReleaseTitle "  [Movie] (2023) 'x'.nzb " = "movie 2023 x" := by
  decide

namespace Dedupe

/-- Helper: result of the two-release fold when the second release matches
the first one's bucket entry. -/
theorem dedupe_pair_matched (a b : Release)
    (heq : Parsers.normalizeReleaseTitle a.title = Parsers.normalizeReleaseTitle b.title)
    (hne : Parsers.normalizeReleaseTitle a.title ≠ "")
    (hwin : areReleasesWithinDays a.publishDateMs b.publishDateMs
      DEDUPE_MAX_PUBLISH_DIFF_DAYS = true) :
    dedupeResultsByTitle [a, b] =
      [if b.paid && !a.paid then b
       else if b.paid = a.paid then
         (match b.publishDateMs with
          | some cp =>
            if (match a.publishDateMs with
                | none => true
                | some ep => ep < cp) then b else a
          | none => a)
       else a] := by
  have hbne : Parsers.normalizeReleaseTitle b.title ≠ "" := heq ▸ hne
  simp only [dedupeResultsByTitle, List.foldl]
  rw [show (dedupeStep ⟨[], []⟩ a) =
      ⟨[(Parsers.normalizeReleaseTitle a.title,
          [⟨a.publishDateMs, a.paid, a, 0⟩])], [a]⟩ by
    simp [dedupeStep, hne, bucketsGet, bucketsSet, findWithinIdx]]
  simp only [dedupeStep, hbne, if_neg hbne, ← heq]
  simp only [bucketsGet, if_pos rfl, Option.getD_some, findWithinIdx, hwin, if_pos]
  rcases hb : b.paid <;> rcases ha : a.paid <;>
    simp only [if_neg hne, Bool.and_self, Bool.not_false, Bool.not_true, Bool.and_true,
      Bool.and_false, if_true, if_false, Bool.true_and, Bool.false_and] <;>
    first
      | rfl
      | (rcases hbp : b.publishDateMs with _ | cp <;>
          first
            | rfl
            | (by_cases hcmp : (match a.publishDateMs with
                  | none => true
                  | some ep => decide (ep < cp)) = true <;>
                simp [hcmp, List.set]))

/-- Helper: two releases whose publish instants are more than the window
apart pass through the two-release fold untouched. -/
theorem dedupe_pair_stable (a b : Release) (pa pb : Int)
    (hpa : a.publishDateMs = some pa) (hpb : b.publishDateMs = some pb)
    (hfar : DEDUPE_MAX_PUBLISH_DIFF_DAYS * MS_PER_DAY < |pa - pb|) :
    dedupeResultsByTitle [a, b] = [a, b] := by
  have hwin : areReleasesWithinDays a.publishDateMs b.publishDateMs
      DEDUPE_MAX_PUBLISH_DIFF_DAYS = false := by
    have : ¬ (|pa - pb| ≤ DEDUPE_MAX_PUBLISH_DIFF_DAYS * MS_PER_DAY) := not_le.mpr hfar
    simp only [areReleasesWithinDays, hpa, hpb, DEDUPE_MAX_PUBLISH_DIFF_DAYS,
      MS_PER_DAY] at this ⊢
    norm_num at this ⊢
    exact this
  by_cases hta : Parsers.normalizeReleaseTitle a.title = "" <;>
    by_cases htb : Parsers.normalizeReleaseTitle b.title = ""
  · simp [dedupeResultsByTitle, dedupeStep, hta, htb]
  · simp [dedupeResultsByTitle, dedupeStep, hta, htb, bucketsGet, bucketsSet, findWithinIdx]
  · simp [dedupeResultsByTitle, dedupeStep, hta, htb, bucketsGet, bucketsSet, findWithinIdx]
  · by_cases heq : Parsers.normalizeReleaseTitle a.title
        = Parsers.normalizeReleaseTitle b.title
    · simp only [dedupeResultsByTitle, List.foldl]
      rw [show (dedupeStep ⟨[], []⟩ a) =
          ⟨[(Parsers.normalizeReleaseTitle a.title,
              [⟨a.publishDateMs, a.paid, a, 0⟩])], [a]⟩ by
        simp [dedupeStep, hta, bucketsGet, bucketsSet, findWithinIdx]]
      simp [dedupeStep, hta, htb, ← heq, bucketsGet, bucketsSet, findWithinIdx, hwin]
    · simp only [dedupeResultsByTitle, List.foldl]
      rw [show (dedupeStep ⟨[], []⟩ a) =
          ⟨[(Parsers.normalizeReleaseTitle a.title,
              [⟨a.publishDateMs, a.paid, a, 0⟩])], [a]⟩ by
        simp [dedupeStep, hta, bucketsGet, bucketsSet, findWithinIdx]]
      simp [dedupeStep, htb, bucketsGet, bucketsSet, findWithinIdx, heq]

end Dedupe

/-- C1: In `dedupeResultsByTitle`, releases are grouped by normalized title
and 14-day publish windows.  Two releases whose publish instants differ by
more than 14 days never remove each other; two releases sharing a non-empty
normalized title and publishing within 14 days of each other collapse to
exactly one survivor: the paid-indexer one when exactly one of the two is
paid, otherwise the one with the strictly more recent publish instant. -/
theorem claim_C1_dedupe_window_and_priority (a b : Dedupe.Release) :
    (∀ pa pb, a.publishDateMs = some pa → b.publishDateMs = some pb →
      Dedupe.DEDUPE_MAX_PUBLISH_DIFF_DAYS * Dedupe.MS_PER_DAY < |pa - pb| →
      Dedupe.dedupeResultsByTitle [a, b] = [a, b]) ∧
    (Parsers.normalizeReleaseTitle a.title = Parsers.normalizeReleaseTitle b.title →
      Parsers.normalizeReleaseTitle a.title ≠ "" →
      Dedupe.areReleasesWithinDays a.publishDateMs b.publishDateMs
        Dedupe.DEDUPE_MAX_PUBLISH_DIFF_DAYS = true →
      ((Dedupe.dedupeResultsByTitle [a, b]).length = 1 ∧
       (a.paid = true → b.paid = false → Dedupe.dedupeResultsByTitle [a, b] = [a]) ∧
       (a.paid = false → b.paid = true → Dedupe.dedupeResultsByTitle [a, b] = [b]) ∧
       (a.paid = b.paid →
         ∀ pa pb, a.publishDateMs = some pa → b.publishDateMs = some pb →
           (pa < pb → Dedupe.dedupeResultsByTitle [a, b] = [b]) ∧
           (pb < pa → Dedupe.dedupeResultsByTitle [a, b] = [a])))) := by
  constructor
  · intro pa pb hpa hpb hfar
    exact Dedupe.dedupe_pair_stable a b pa pb hpa hpb hfar
  · intro heq hne hwin
    have hM := Dedupe.dedupe_pair_matched a b heq hne hwin
    refine ⟨by rw [hM]; rfl, ?_, ?_, ?_⟩
    · intro ha hb; rw [hM]; simp [ha, hb]
    · intro ha hb; rw [hM]; simp [ha, hb]
    · intro hpaid pa pb hpa hpb
      constructor
      · intro hlt; rw [hM]; simp [hpa, hpb, ← hpaid, hlt]
      · intro hlt
        have hnlt : ¬ pa < pb := not_lt.mpr (le_of_lt hlt)
        rw [hM]; simp [hpa, hpb, ← hpaid, hnlt]

/-- Witness for C1 at concrete releases: newer release wins a matched pair,
far-apart releases both survive, and a paid release beats a free one. -/
theorem claim_C1_dedupe_window_and_priority_witness :
    Dedupe.dedupeResultsByTitle
        [⟨"Show.S01E01.1080p.WEB", some 1700000000000, false⟩,
         ⟨"Show S01E01 1080p WEB", some 1700086400000, false⟩] =
      [⟨"Show S01E01 1080p WEB", some 1700086400000, false⟩] ∧
    Dedupe.dedupeResultsByTitle
        [⟨"Old.Movie.1999", some 1000, false⟩,
         ⟨"Old Movie 1999", some 1209601001, false⟩] =
      [⟨"Old.Movie.1999", some 1000, false⟩,
       ⟨"Old Movie 1999", some 1209601001, false⟩] ∧
    Dedupe.dedupeResultsByTitle
        [⟨"Film.2020.2160p", some 1700000000000, true⟩,
         ⟨"Film 2020 2160p", some 1700086400000, false⟩] =
      [⟨"Film.2020.2160p", some 1700000000000, true⟩] := by
  refine ⟨?_, ?_, ?_⟩
  · exact (((claim_C1_dedupe_window_and_priority
      ⟨"Show.S01E01.1080p.WEB", some 1700000000000, false⟩
      ⟨"Show S01E01 1080p WEB", some 1700086400000, false⟩).2
      (by decide) (by decide) (by decide)).2.2.2 rfl
      1700000000000 1700086400000 rfl rfl).1 (by decide)
  · exact (claim_C1_dedupe_window_and_priority
      ⟨"Old.Movie.1999", some 1000, false⟩
      ⟨"Old Movie 1999", some 1209601001, false⟩).1
      1000 1209601001 rfl rfl (by decide)
  · exact (((claim_C1_dedupe_window_and_priority
      ⟨"Film.2020.2160p", some 1700000000000, true⟩
      ⟨"Film 2020 2160p", some 1700086400000, false⟩).2
      (by decide) (by decide) (by decide)).2.1 rfl rfl)

/-- C10: In `dedupeResultsByTitle`, a pair of releases sharing a non-empty
normalized title where at least one publish instant failed to parse is
treated as within the 14-day window and collapses to one survivor; a
release with unknown publish date can remove, or be removed by, a
same-titled release of arbitrary age. -/
theorem claim_C10_dedupe_unknown_publish_collapses (a b : Dedupe.Release)
    (heq : Parsers.normalizeReleaseTitle a.title = Parsers.normalizeReleaseTitle b.title)
    (hne : Parsers.normalizeReleaseTitle a.title ≠ "")
    (hnull : a.publishDateMs = none ∨ b.publishDateMs = none) :
    Dedupe.areReleasesWithinDays a.publishDateMs b.publishDateMs
      Dedupe.DEDUPE_MAX_PUBLISH_DIFF_DAYS = true ∧
    (Dedupe.dedupeResultsByTitle [a, b]).length = 1 ∧
    (a.paid = b.paid → b.publishDateMs = none →
      Dedupe.dedupeResultsByTitle [a, b] = [a]) ∧
    (a.paid = b.paid → a.publishDateMs = none → ∀ pb, b.publishDateMs = some pb →
      Dedupe.dedupeResultsByTitle [a, b] = [b]) := by
  have hwin : Dedupe.areReleasesWithinDays a.publishDateMs b.publishDateMs
      Dedupe.DEDUPE_MAX_PUBLISH_DIFF_DAYS = true := by
    rcases hnull with h | h <;>
      rcases ha : a.publishDateMs with _ | pa <;>
      rcases hb : b.publishDateMs with _ | pb <;>
      simp_all [Dedupe.areReleasesWithinDays, Dedupe.DEDUPE_MAX_PUBLISH_DIFF_DAYS]
  have hM := Dedupe.dedupe_pair_matched a b heq hne hwin
  refine ⟨hwin, by rw [hM]; rfl, ?_, ?_⟩
  · intro hpaid hbnone
    rw [hM]; simp [hbnone, ← hpaid]
  · intro hpaid hanone pb hpb
    rw [hM]; simp [hpb, hanone, ← hpaid]

/-- Witness for C10: a release with no parseable publish instant removes a
very old same-titled release, and is itself removed when listed first. -/
theorem claim_C10_dedupe_unknown_publish_collapses_witness :
    Dedupe.dedupeResultsByTitle
        [⟨"Some.Show.720p", none, false⟩,
         ⟨"Some Show 720p", some 1000, false⟩] =
      [⟨"Some Show 720p", some 1000, false⟩] ∧
    Dedupe.dedupeResultsByTitle
        [⟨"Some Show 720p", some 1000, false⟩,
         ⟨"Some.Show.720p", none, false⟩] =
      [⟨"Some Show 720p", some 1000, false⟩] := by
  constructor
  · exact (claim_C10_dedupe_unknown_publish_collapses
      ⟨"Some.Show.720p", none, false⟩ ⟨"Some Show 720p", some 1000, false⟩
      (by decide) (by decide) (Or.inl rfl)).2.2.2 rfl rfl 1000 rfl
  · exact (claim_C10_dedupe_unknown_publish_collapses
      ⟨"Some Show 720p", some 1000, false⟩ ⟨"Some.Show.720p", none, false⟩
      (by decide) (by decide) (Or.inr rfl)).2.2.1 rfl rfl

namespace ReleaseParser

/-- Output of the external `parse-torrent-title` library, which is not part
of this repository: `parseReleaseMetadata` consumes only its `resolution`
and `quality` fields, so the library is abstracted as this input record
(`none` for an absent or falsy field). -/
structure ParsedTitle where
  resolution : Option String
  quality : Option String
deriving DecidableEq, Repr

/-- `src/services/metadata/releaseParser.js`: `RESOLUTION_PREFERENCES`. -/
def RESOLUTION_PREFERENCES : List String :=
  ["4320p", "2160p", "1440p", "1080p", "720p", "576p", "540p", "480p", "360p", "240p"]

/-- One alternative of a resolution regex: the literal token and whether the
regex puts `\b` before / after it. -/
structure TitlePattern where
  tok : String
  bStart : Bool
  bEnd : Bool
deriving DecidableEq, Repr

/-- `RESOLUTION_NUMERIC_PATTERNS`: each regex as its list of alternatives,
e.g. `/\b1080p\b|fullhd|fhd/i` and `/\b720p\b|hd\b/i`. -/
def RESOLUTION_NUMERIC_PATTERNS : List (String × List TitlePattern) :=
  [("4320p", [⟨"4320p", true, true⟩]),
   ("2160p", [⟨"2160p", true, true⟩]),
   ("1440p", [⟨"1440p", true, true⟩]),
   ("1080p", [⟨"1080p", true, true⟩, ⟨"fullhd", false, false⟩, ⟨"fhd", false, false⟩]),
   ("720p", [⟨"720p", true, true⟩, ⟨"hd", false, true⟩]),
   ("576p", [⟨"576p", true, true⟩]),
   ("540p", [⟨"540p", true, true⟩]),
   ("480p", [⟨"480p", true, true⟩, ⟨"sd", false, true⟩]),
   ("360p", [⟨"360p", true, true⟩]),
   ("240p", [⟨"240p", true, true⟩])]

/-- `RESOLUTION_SYNONYM_PATTERNS`: `/\b8k\b/i` and `/\b(4k|uhd)\b/i`. -/
def RESOLUTION_SYNONYM_PATTERNS : List (String × List TitlePattern) :=
  [("4320p", [⟨"8k", true, true⟩]),
   ("2160p", [⟨"4k", true, true⟩, ⟨"uhd", true, true⟩])]

def testPatterns (title : String) (pats : List TitlePattern) : Bool :=
  pats.any (fun p => JsStr.testToken title p.tok p.bStart p.bEnd)

/-- The `for (const entry of …)` scan over a pattern table: label of the
first regex that tests true against the title. -/
def firstMatching (title : String) : List (String × List TitlePattern) → Option String
  | [] => none
  | (label, pats) :: rest =>
    if testPatterns title pats then some label else firstMatching title rest

/-- If-chain of `normalizeResolutionLabel` over the lower-cased label
(`const value = label.toString().toLowerCase()`). -/
def normalizeResolutionValue (value : String) : Option String :=
  if value = "" then none
  else if JsStr.includes value "4320" || JsStr.includes value "8k" then some "4320p"
  else if JsStr.includes value "2160" || JsStr.includes value "4k"
      || JsStr.includes value "uhd" then some "2160p"
  else if JsStr.includes value "1440" then some "1440p"
  else if JsStr.includes value "1080" then some "1080p"
  else if JsStr.includes value "720" then some "720p"
  else if JsStr.includes value "576" then some "576p"
  else if JsStr.includes value "540" then some "540p"
  else if JsStr.includes value "480" then some "480p"
  else if JsStr.includes value "360" then some "360p"
  else if JsStr.includes value "240" then some "240p"
  else none

/-- `src/services/metadata/releaseParser.js`: `normalizeResolutionLabel`. -/
def normalizeResolutionLabel (label : String) : Option String :=
  normalizeResolutionValue (JsStr.lower label)

/-- `normalizeResolutionLabel` applied to an optional parser field (a falsy
JavaScript value skips the call, which yields the same `null` outcome). -/
def normalizeOptLabel : Option String → Option String
  | some l => normalizeResolutionLabel l
  | none => none

/-- `src/services/metadata/releaseParser.js:174-195`: `detectResolution`.
The JavaScript `null` result (no resolution found) is the spec's `unknown`
label and is modelled as `none`. -/
def detectResolution (rawTitle : String) (parsed : ParsedTitle) : Option String :=
  match normalizeOptLabel parsed.resolution with
  | some n => some n
  | none =>
    match firstMatching rawTitle RESOLUTION_NUMERIC_PATTERNS with
    | some label => some label
    | none =>
      match normalizeOptLabel parsed.quality with
      | some n => some n
      | none => firstMatching rawTitle RESOLUTION_SYNONYM_PATTERNS

/-- `QUALITY_SCORE_MAP[label] || 0`: rank within `RESOLUTION_PREFERENCES`,
higher is better, absent label scores 0. -/
def qualityScoreOf : Option String → Nat
  | some lbl =>
    match RESOLUTION_PREFERENCES.findIdx? (· = lbl) with
    | some i => RESOLUTION_PREFERENCES.length - i
    | none => 0
  | none => 0

/-- `src/services/metadata/releaseParser.js:214-234`: the `resolution` and
`qualityScore` fields of `parseReleaseMetadata` (`languages` and
`qualityLabel` are not used by any claim). -/
structure ReleaseMetadata where
  resolution : Option String
  qualityScore : Nat
deriving DecidableEq, Repr

def parseReleaseMetadata (title : String) (parsed : ParsedTitle) : ReleaseMetadata :=
  let resolution := detectResolution title parsed
  ⟨resolution, qualityScoreOf resolution⟩

end ReleaseParser

namespace ReleaseParser

set_option maxHeartbeats 1600000 in
/-- Every `some` branch of `normalizeResolutionLabel` is one of the ten
resolution labels. -/
theorem normalizeResolutionLabel_closure (s : String) (lbl : String)
    (h : normalizeResolutionLabel s = some lbl) : lbl ∈ RESOLUTION_PREFERENCES := by
  unfold normalizeResolutionLabel normalizeResolutionValue at h
  split_ifs at h <;>
    first
      | exact Option.noConfusion h
      | (rw [Option.some_inj] at h; subst h; decide)

theorem normalizeOptLabel_closure (o : Option String) (lbl : String)
    (h : normalizeOptLabel o = some lbl) : lbl ∈ RESOLUTION_PREFERENCES := by
  cases o with
  | none => exact absurd h (by simp [normalizeOptLabel])
  | some s => exact normalizeResolutionLabel_closure s lbl h

/-- A label produced by a pattern-table scan is a first component of the
table. -/
theorem firstMatching_mem (title : String) (lbl : String) :
    ∀ tbl : List (String × List TitlePattern),
      firstMatching title tbl = some lbl → lbl ∈ tbl.map (fun e => e.1)
  | [], h => by simp [firstMatching] at h
  | (label, pats) :: rest, h => by
    by_cases ht : testPatterns title pats
    · simp [firstMatching, ht] at h
      simp [h]
    · simp only [firstMatching, ht, if_neg, Bool.false_eq_true, if_false] at h
      simpa using Or.inr (firstMatching_mem title lbl rest h)

end ReleaseParser

/-- C4 counterexample: the claim maps the alias `uhd` to `2160p`, but in
`detectResolution` the numeric-tier pattern `/\b720p\b|hd\b/i` matches the
`hd` inside `uhd` first, so a title whose only resolution marker is the
whole word `uhd` is detected as `720p`, not `2160p`. -/
theorem claim_C4_resolution_counterexample :
    JsStr.testToken "Movie.UHD.2023" "uhd" true true = true ∧
    ReleaseParser.normalizeOptLabel (ReleaseParser.ParsedTitle.mk none none).resolution
      = none ∧
    ReleaseParser.detectResolution "Movie.UHD.2023" ⟨none, none⟩ = some "720p" ∧
    ReleaseParser.detectResolution "Movie.UHD.2023" ⟨none, none⟩ ≠ some "2160p" := by
  decide

/-- C4 amended: every detected resolution is one of the ten labels or the
absent label (the spec's `unknown`); an explicit parser resolution wins;
otherwise the numeric-tier patterns (which also carry the textual tokens
`fullhd`/`fhd` for `1080p`, `hd` for `720p` and `sd` for `480p`, so `uhd`
lands on `720p`) win over the alias tier `8k→4320p`, `4k|uhd→2160p`; when
no tier matches the result is the absent label `unknown`. -/
theorem claim_C4_resolution_detection (rawTitle : String)
    (parsed : ReleaseParser.ParsedTitle) :
    (∀ lbl, ReleaseParser.detectResolution rawTitle parsed = some lbl →
      lbl ∈ ReleaseParser.RESOLUTION_PREFERENCES) ∧
    (∀ n, ReleaseParser.normalizeOptLabel parsed.resolution = some n →
      ReleaseParser.detectResolution rawTitle parsed = some n) ∧
    (∀ l, ReleaseParser.normalizeOptLabel parsed.resolution = none →
      ReleaseParser.firstMatching rawTitle ReleaseParser.RESOLUTION_NUMERIC_PATTERNS
        = some l →
      ReleaseParser.detectResolution rawTitle parsed = some l) ∧
    (ReleaseParser.normalizeOptLabel parsed.resolution = none →
      ReleaseParser.firstMatching rawTitle ReleaseParser.RESOLUTION_NUMERIC_PATTERNS
        = none →
      ReleaseParser.normalizeOptLabel parsed.quality = none →
      ReleaseParser.detectResolution rawTitle parsed
        = ReleaseParser.firstMatching rawTitle ReleaseParser.RESOLUTION_SYNONYM_PATTERNS) := by
  have hsubNum : ∀ x ∈ ReleaseParser.RESOLUTION_NUMERIC_PATTERNS.map (fun e => e.1),
      x ∈ ReleaseParser.RESOLUTION_PREFERENCES := by decide
  have hsubSyn : ∀ x ∈ ReleaseParser.RESOLUTION_SYNONYM_PATTERNS.map (fun e => e.1),
      x ∈ ReleaseParser.RESOLUTION_PREFERENCES := by decide
  refine ⟨?_, ?_, ?_, ?_⟩
  · intro lbl h
    unfold ReleaseParser.detectResolution at h
    rcases h1 : ReleaseParser.normalizeOptLabel parsed.resolution with _ | n1
    · simp only [h1] at h
      rcases h2 : ReleaseParser.firstMatching rawTitle
          ReleaseParser.RESOLUTION_NUMERIC_PATTERNS with _ | n2
      · simp only [h2] at h
        rcases h3 : ReleaseParser.normalizeOptLabel parsed.quality with _ | n3
        · simp only [h3] at h
          exact hsubSyn lbl (ReleaseParser.firstMatching_mem rawTitle lbl
            ReleaseParser.RESOLUTION_SYNONYM_PATTERNS h)
        · simp only [h3, Option.some.injEq] at h
          subst h
          exact ReleaseParser.normalizeOptLabel_closure parsed.quality n3 h3
      · simp only [h2, Option.some.injEq] at h
        subst h
        exact hsubNum n2 (ReleaseParser.firstMatching_mem rawTitle n2
          ReleaseParser.RESOLUTION_NUMERIC_PATTERNS h2)
    · simp only [h1, Option.some.injEq] at h
      subst h
      exact ReleaseParser.normalizeOptLabel_closure parsed.resolution n1 h1
  · intro n h1
    unfold ReleaseParser.detectResolution
    rw [h1]
  · intro l h1 h2
    unfold ReleaseParser.detectResolution
    rw [h1, h2]
  · intro h1 h2 h3
    unfold ReleaseParser.detectResolution
    rw [h1, h2, h3]

/-- Witness for C4 amended at concrete inputs: a numeric match, an explicit
parser resolution, an alias match, and a no-match title. -/
theorem claim_C4_resolution_detection_witness :
    "2160p" ∈ ReleaseParser.RESOLUTION_PREFERENCES ∧
    ReleaseParser.detectResolution "Show.2160p.WEB" ⟨none, none⟩ = some "2160p" ∧
    ReleaseParser.detectResolution "Plain Show" ⟨some "4K", none⟩ = some "2160p" ∧
    ReleaseParser.detectResolution "Movie 8k" ⟨none, none⟩
      = ReleaseParser.firstMatching "Movie 8k" ReleaseParser.RESOLUTION_SYNONYM_PATTERNS ∧
    ReleaseParser.detectResolution "Plain Show" ⟨none, none⟩ = none := by
  refine ⟨?_, ?_, ?_, ?_, ?_⟩
  · exact (claim_C4_resolution_detection "Show.2160p.WEB" ⟨none, none⟩).1
      "2160p" ((claim_C4_resolution_detection "Show.2160p.WEB" ⟨none, none⟩).2.2.1
        "2160p" rfl (by decide))
  · exact (claim_C4_resolution_detection "Show.2160p.WEB" ⟨none, none⟩).2.2.1
      "2160p" rfl (by decide)
  · exact (claim_C4_resolution_detection "Plain Show" ⟨some "4K", none⟩).2.1
      "2160p" (by decide)
  · exact (claim_C4_resolution_detection "Movie 8k" ⟨none, none⟩).2.2.2
      rfl (by decide) rfl
  · have h := (claim_C4_resolution_detection "Plain Show" ⟨none, none⟩).2.2.2
      rfl (by decide) rfl
    rw [h]
    decide

namespace Helpers

/-- One annotated release as consumed by the sort helpers of
`src/utils/helpers.js` (`annotateNzbResult` output): derived quality rank,
byte size (`none` for a non-finite size), primary language and detected
language list. -/
structure AnnotatedResult where
  qualityRank : Int
  size : Option Int
  language : Option String
  languages : List String
deriving DecidableEq, Repr

/-- `src/utils/helpers.js`: `normalizePreferredLanguageList` on an already
split list (the string input path splits on commas first): trim entries,
drop empties, and keep the first spelling of each case-insensitive key. -/
def normalizePreferredLanguageList (prefs : List String) : List String :=
  (prefs.foldl
    (fun (st : List String × List String) entry =>
      let value := JsStr.trim entry
      if value = "" then st
      else
        let key := JsStr.lower value
        if st.1.contains key then st
        else (st.1 ++ [key], st.2 ++ [value]))
    ([], [])).2

/-- `src/utils/helpers.js`: `gatherResultLanguages` (a falsy `language`
field contributes nothing, entries are trimmed and empties dropped). -/
def gatherResultLanguages (r : AnnotatedResult) : List String :=
  (((match r.language with
     | some l => if l = "" then [] else [l]
     | none => []) ++ r.languages).map JsStr.trim).filter (fun lang => lang ≠ "")

/-- `src/utils/helpers.js`: `getPreferredLanguageMatches`: for each
normalized preference in order, the first result language equal to it
(case-insensitively). -/
def getPreferredLanguageMatches (r : AnnotatedResult) (preferredLanguages : List String) :
    List String :=
  let preferences := (normalizePreferredLanguageList preferredLanguages).map JsStr.lower
  if preferences = [] then []
  else
    let resultLanguages := gatherResultLanguages r
    if resultLanguages = [] then []
    else
      preferences.foldl
        (fun acc pref =>
          match resultLanguages.find? (fun lang => JsStr.lower lang = pref) with
          | some raw => acc ++ [raw]
          | none => acc) []

/-- `src/utils/helpers.js`: `resultMatchesPreferredLanguage`. -/
def resultMatchesPreferredLanguage (r : AnnotatedResult) (preferredLanguages : List String) :
    Bool :=
  !(getPreferredLanguageMatches r preferredLanguages).isEmpty

/-- `Number.isFinite(x.size) ? x.size : 0` as used by the comparator. -/
def sizeVal (r : AnnotatedResult) : Int := r.size.getD 0

/-- `src/utils/helpers.js:136-143`: `compareQualityThenSize(a, b) ≤ 0`,
i.e. "the stable sort keeps `a` before `b`": quality rank descending, then
size descending. -/
def cmpLeQS (a b : AnnotatedResult) : Bool :=
  if a.qualityRank = b.qualityRank then sizeVal b ≤ sizeVal a
  else b.qualityRank < a.qualityRank

def qsRel (a b : AnnotatedResult) : Prop := cmpLeQS a b = true

instance : DecidableRel qsRel := fun a b =>
  inferInstanceAs (Decidable (cmpLeQS a b = true))

theorem cmpLeQS_iff (a b : AnnotatedResult) :
    cmpLeQS a b = true ↔
      (b.qualityRank < a.qualityRank ∨
        (a.qualityRank = b.qualityRank ∧ sizeVal b ≤ sizeVal a)) := by
  unfold cmpLeQS
  by_cases h : a.qualityRank = b.qualityRank <;> simp [h]

theorem qsRel_total (a b : AnnotatedResult) : qsRel a b ∨ qsRel b a := by
  unfold qsRel
  rw [cmpLeQS_iff, cmpLeQS_iff]
  omega

theorem qsRel_trans (a b c : AnnotatedResult) :
    qsRel a b → qsRel b c → qsRel a c := by
  unfold qsRel
  rw [cmpLeQS_iff, cmpLeQS_iff, cmpLeQS_iff]
  omega

instance : IsTotal AnnotatedResult qsRel := ⟨qsRel_total⟩

instance : IsTrans AnnotatedResult qsRel := ⟨fun a b c => qsRel_trans a b c⟩

/-- Model of `Array.prototype.sort(compareQualityThenSize)`: the ECMAScript
sort is stable and, for this consistent comparator, its output is the
unique stable order, realized by insertion sort with the
"`compare(a,b) ≤ 0` keeps `a` first" relation. -/
def jsSortStable (l : List AnnotatedResult) : List AnnotatedResult :=
  List.insertionSort qsRel l

/-- `src/utils/helpers.js:145-166`: `sortAnnotatedResults`. -/
def sortAnnotatedResults (results : List AnnotatedResult) (sortMode : String)
    (preferredLanguages : List String) : List AnnotatedResult :=
  if results.isEmpty then results
  else
    let normalizedPreferences := normalizePreferredLanguageList preferredLanguages
    if sortMode = "language_quality_size" && !normalizedPreferences.isEmpty then
      let preferred := results.filter
        (fun r => resultMatchesPreferredLanguage r normalizedPreferences)
      let others := results.filter
        (fun r => !resultMatchesPreferredLanguage r normalizedPreferences)
      jsSortStable preferred ++ jsSortStable others
    else jsSortStable results

end Helpers

namespace Helpers

theorem mem_jsSortStable {x : AnnotatedResult} {l : List AnnotatedResult} :
    x ∈ jsSortStable l ↔ x ∈ l :=
  (List.perm_insertionSort qsRel l).mem_iff

/-- The two-bucket shape of the `language_quality_size` branch. -/
theorem sortAnnotatedResults_language_eq (results : List AnnotatedResult)
    (preferredLanguages : List String)
    (hres : results ≠ [])
    (hp : normalizePreferredLanguageList preferredLanguages ≠ []) :
    sortAnnotatedResults results "language_quality_size" preferredLanguages =
      jsSortStable (results.filter
        (fun r => resultMatchesPreferredLanguage r
          (normalizePreferredLanguageList preferredLanguages))) ++
      jsSortStable (results.filter
        (fun r => !resultMatchesPreferredLanguage r
          (normalizePreferredLanguageList preferredLanguages))) := by
  have hne : results.isEmpty = false := by
    cases results with
    | nil => exact absurd rfl hres
    | cons a l => rfl
  have hnp : (normalizePreferredLanguageList preferredLanguages).isEmpty = false := by
    cases h : normalizePreferredLanguageList preferredLanguages with
    | nil => exact absurd h hp
    | cons a l => rfl
  simp [sortAnnotatedResults, hne, hnp]

end Helpers

/-- C3 counterexample: with preferred languages `["Tamil", "English"]`, an
English-only release of higher quality rank sorts before a Tamil-only
release, although the claim's bucket order (mirroring the preference list)
would put the Tamil bucket first.  The code keeps a single preferred group
ordered only by quality and size. -/
theorem claim_C3_sort_counterexample :
    Helpers.getPreferredLanguageMatches
      ⟨5, some 0, some "English", []⟩ ["Tamil", "English"] = ["English"] ∧
    Helpers.getPreferredLanguageMatches
      ⟨1, some 0, some "Tamil", []⟩ ["Tamil", "English"] = ["Tamil"] ∧
    Helpers.sortAnnotatedResults
      [⟨5, some 0, some "English", []⟩, ⟨1, some 0, some "Tamil", []⟩]
      "language_quality_size" ["Tamil", "English"]
      = [⟨5, some 0, some "English", []⟩, ⟨1, some 0, some "Tamil", []⟩] := by
  decide

/-- C3 amended: in mode `language_quality_size` with a non-empty normalized
preferred-language list, the sort permutes the input, places every release
whose language set intersects the preferences before every release whose
set does not, and orders each of the two groups by quality rank descending
then size descending; there is no per-language bucket ordering inside the
preferred group. -/
theorem claim_C3_sort_language_quality_size (results : List Helpers.AnnotatedResult)
    (preferredLanguages : List String)
    (hp : Helpers.normalizePreferredLanguageList preferredLanguages ≠ []) :
    (Helpers.sortAnnotatedResults results "language_quality_size" preferredLanguages).Perm
      results ∧
    (Helpers.sortAnnotatedResults results "language_quality_size" preferredLanguages).Pairwise
      (fun x y =>
        Helpers.resultMatchesPreferredLanguage y
          (Helpers.normalizePreferredLanguageList preferredLanguages) = true →
        Helpers.resultMatchesPreferredLanguage x
          (Helpers.normalizePreferredLanguageList preferredLanguages) = true) ∧
    ((Helpers.sortAnnotatedResults results "language_quality_size" preferredLanguages).filter
      (fun r => Helpers.resultMatchesPreferredLanguage r
        (Helpers.normalizePreferredLanguageList preferredLanguages))).Pairwise Helpers.qsRel ∧
    ((Helpers.sortAnnotatedResults results "language_quality_size" preferredLanguages).filter
      (fun r => !Helpers.resultMatchesPreferredLanguage r
        (Helpers.normalizePreferredLanguageList preferredLanguages))).Pairwise Helpers.qsRel := by
  by_cases hres : results = []
  · subst hres
    simp [Helpers.sortAnnotatedResults]
  · rw [Helpers.sortAnnotatedResults_language_eq results preferredLanguages hres hp]
    set np := Helpers.normalizePreferredLanguageList preferredLanguages with hnp
    set p : Helpers.AnnotatedResult → Bool :=
      fun r => Helpers.resultMatchesPreferredLanguage r np with hpdef
    have hmemP : ∀ x ∈ Helpers.jsSortStable (results.filter p), p x = true := by
      intro x hx
      exact (List.mem_filter.mp (Helpers.mem_jsSortStable.mp hx)).2
    have hmemO : ∀ x ∈ Helpers.jsSortStable (results.filter (fun r => !p r)),
        p x = false := by
      intro x hx
      have := (List.mem_filter.mp (Helpers.mem_jsSortStable.mp hx)).2
      simpa using this
    refine ⟨?_, ?_, ?_, ?_⟩
    · exact ((List.perm_insertionSort Helpers.qsRel _).append
        (List.perm_insertionSort Helpers.qsRel _)).trans
        (List.filter_append_perm p results)
    · rw [List.pairwise_append]
      refine ⟨?_, ?_, ?_⟩
      · exact List.pairwise_of_forall_mem_list
          (fun a ha b _ => fun _ => hmemP a ha)
      · exact List.pairwise_of_forall_mem_list
          (fun a _ b hb => fun hpb =>
            absurd ((hmemO b hb).symm.trans hpb) Bool.false_ne_true)
      · exact fun a ha b _ => fun _ => hmemP a ha
    · have h1 : (Helpers.jsSortStable (results.filter p)).filter p
          = Helpers.jsSortStable (results.filter p) :=
        List.filter_eq_self.mpr hmemP
      have h2 : (Helpers.jsSortStable (results.filter (fun r => !p r))).filter p = [] :=
        List.filter_eq_nil_iff.mpr (by
          intro a ha
          simp [hmemO a ha])
      rw [List.filter_append, h1, h2, List.append_nil]
      exact List.sorted_insertionSort Helpers.qsRel (results.filter p)
    · have h1 : (Helpers.jsSortStable (results.filter p)).filter (fun r => !p r) = [] :=
        List.filter_eq_nil_iff.mpr (by
          intro a ha
          simp [hmemP a ha])
      have h2 : (Helpers.jsSortStable (results.filter (fun r => !p r))).filter
            (fun r => !p r)
          = Helpers.jsSortStable (results.filter (fun r => !p r)) :=
        List.filter_eq_self.mpr (by
          intro a ha
          simp [hmemO a ha])
      rw [List.filter_append, h1, h2, List.nil_append]
      exact List.sorted_insertionSort Helpers.qsRel (results.filter (fun r => !p r))

/-- Witness for C3 amended: one Tamil release and one larger English
release under preference list `["Tamil"]`. -/
theorem claim_C3_sort_language_quality_size_witness :
    (Helpers.sortAnnotatedResults
      [⟨9, some 10, some "English", []⟩, ⟨7, some 4, some "Tamil", []⟩]
      "language_quality_size" ["Tamil"]).Perm
      [⟨9, some 10, some "English", []⟩, ⟨7, some 4, some "Tamil", []⟩] ∧
    (Helpers.sortAnnotatedResults
      [⟨9, some 10, some "English", []⟩, ⟨7, some 4, some "Tamil", []⟩]
      "language_quality_size" ["Tamil"]).Pairwise
      (fun x y =>
        Helpers.resultMatchesPreferredLanguage y
          (Helpers.normalizePreferredLanguageList ["Tamil"]) = true →
        Helpers.resultMatchesPreferredLanguage x
          (Helpers.normalizePreferredLanguageList ["Tamil"]) = true) := by
  have h := claim_C3_sort_language_quality_size
    [⟨9, some 10, some "English", []⟩, ⟨7, some 4, some "Tamil", []⟩]
    ["Tamil"] (by decide)
  exact ⟨h.1, h.2.1⟩

namespace Triage

/-- One archive finding of the triage analyzer (only its `status` string is
read by `summarizeDecision`). -/
structure ArchiveFinding where
  status : String
deriving DecidableEq, Repr

/-- A triage analyzer decision as consumed by `summarizeDecision`
(`src/unnamed/part_006:345-382`).  The analyzer
(`src/services/triage/index.js`) always builds it with
`decision = blockers.size === 0 ? 'accept' : 'reject'`. -/
structure AnalyzerDecision where
  decision : String
  blockers : List String
  warnings : List String
  archiveFindings : List ArchiveFinding
deriving DecidableEq, Repr

/-- `label === 'rar-stored' || label === 'sevenzip-stored' || label ===
'segment-ok'` over the lower-cased finding status. -/
def isPositiveLabel (label : String) : Bool :=
  label = "rar-stored" || label = "sevenzip-stored" || label = "segment-ok"

def hasPositiveFinding (d : AnalyzerDecision) : Bool :=
  d.archiveFindings.any (fun f => isPositiveLabel (JsStr.lower f.status))

/-- The `sevenZipFlag` of `summarizeDecision`: some finding status or some
warning starts with `sevenzip` (case-insensitively). -/
def hasSevenZipEvidence (d : AnalyzerDecision) : Bool :=
  d.archiveFindings.any (fun f => JsStr.startsWith (JsStr.lower f.status) "sevenzip")
    || d.warnings.any (fun w => JsStr.startsWith (JsStr.lower w) "sevenzip")

/-- The `let status` computed by the first half of `summarizeDecision`
(`src/unnamed/part_006:345-382`). -/
def summarizeBaseStatus (d : AnalyzerDecision) : String :=
  if d.decision = "accept" && d.blockers.isEmpty then
    if hasPositiveFinding d then "verified" else "unverified"
  else "blocked"

/-- `src/unnamed/part_006:345-382`: the `status` field computed by
`summarizeDecision` (base status plus the 7z upgrade). -/
def summarizeDecisionStatus (d : AnalyzerDecision) : String :=
  if summarizeBaseStatus d = "unverified" then
    if hasSevenZipEvidence d then "unverified_7z" else "unverified"
  else summarizeBaseStatus d

end Triage

/-- C2 counterexample: an accepted decision with no blockers, no positive
finding, one 7z finding and one non-7z finding — the evidence is not "only
7z-related", yet the status is upgraded to `unverified_7z` instead of the
claimed `unverified`. -/
theorem claim_C2_status_counterexample :
    (Triage.AnalyzerDecision.mk "accept" [] []
      [⟨"sevenzip-untested"⟩, ⟨"rar-header-not-found"⟩]).decision = "accept" ∧
    (Triage.AnalyzerDecision.mk "accept" [] []
      [⟨"sevenzip-untested"⟩, ⟨"rar-header-not-found"⟩]).blockers = [] ∧
    Triage.hasPositiveFinding (Triage.AnalyzerDecision.mk "accept" [] []
      [⟨"sevenzip-untested"⟩, ⟨"rar-header-not-found"⟩]) = false ∧
    (JsStr.startsWith (JsStr.lower "rar-header-not-found") "sevenzip" = false) ∧
    Triage.summarizeDecisionStatus (Triage.AnalyzerDecision.mk "accept" [] []
      [⟨"sevenzip-untested"⟩, ⟨"rar-header-not-found"⟩]) = "unverified_7z" ∧
    Triage.summarizeDecisionStatus (Triage.AnalyzerDecision.mk "accept" [] []
      [⟨"sevenzip-untested"⟩, ⟨"rar-header-not-found"⟩]) ≠ "unverified" := by
  decide

/-- C2 amended: for every analyzer decision (which satisfies
`decision = accept ↔ blockers empty` by construction), the summarized
status is `verified` iff the decision is accept and some archive finding is
`rar-stored`, `sevenzip-stored` or `segment-ok`; any blocker yields
`blocked`; with no blockers and no positive finding the status is
`unverified`, upgraded to `unverified_7z` when ANY archive finding status
or warning starts with `sevenzip` (not only when 7z is the only
evidence). -/
theorem claim_C2_status_synthesis (d : Triage.AnalyzerDecision)
    (hinv : d.decision = "accept" ↔ d.blockers = []) :
    (Triage.summarizeDecisionStatus d = "verified" ↔
      (d.decision = "accept" ∧ Triage.hasPositiveFinding d = true)) ∧
    (d.blockers ≠ [] → Triage.summarizeDecisionStatus d = "blocked") ∧
    (d.blockers = [] → Triage.hasPositiveFinding d = false →
      Triage.summarizeDecisionStatus d =
        (if Triage.hasSevenZipEvidence d then "unverified_7z" else "unverified")) := by
  by_cases hacc : d.decision = "accept"
  · have hb : d.blockers = [] := hinv.mp hacc
    by_cases hpos : Triage.hasPositiveFinding d = true
    · have hbase : Triage.summarizeBaseStatus d = "verified" := by
        simp [Triage.summarizeBaseStatus, hacc, hb, hpos]
      have hs : Triage.summarizeDecisionStatus d = "verified" := by
        simp [Triage.summarizeDecisionStatus, hbase]
      refine ⟨by simp [hs, hacc, hpos], fun hbne => absurd hb hbne, ?_⟩
      intro _ hposf
      rw [hposf] at hpos
      exact absurd hpos (by decide)
    · have hbase : Triage.summarizeBaseStatus d = "unverified" := by
        simp [Triage.summarizeBaseStatus, hacc, hb, hpos]
      have hs : Triage.summarizeDecisionStatus d =
          (if Triage.hasSevenZipEvidence d then "unverified_7z" else "unverified") := by
        simp [Triage.summarizeDecisionStatus, hbase]
      refine ⟨?_, fun hbne => absurd hb hbne, fun _ _ => hs⟩
      constructor
      · intro hv
        rw [hs] at hv
        by_cases h7 : Triage.hasSevenZipEvidence d = true <;> simp [h7] at hv
      · rintro ⟨_, hp⟩
        exact absurd hp hpos
  · have hbne : d.blockers ≠ [] := fun h => hacc (hinv.mpr h)
    have hbase : Triage.summarizeBaseStatus d = "blocked" := by
      simp [Triage.summarizeBaseStatus, hacc]
    have hs : Triage.summarizeDecisionStatus d = "blocked" := by
      simp [Triage.summarizeDecisionStatus, hbase]
    refine ⟨?_, fun _ => hs, fun hb => absurd hb hbne⟩
    constructor
    · intro hv
      rw [hs] at hv
      exact absurd hv (by decide)
    · rintro ⟨ha, _⟩
      exact absurd ha hacc

/-- Witness for C2 amended: a stored-RAR accept is `verified`; a rejected
decision with a blocker is `blocked`; a clean accept with a 7z-untested
finding is `unverified_7z`. -/
theorem claim_C2_status_synthesis_witness :
    Triage.summarizeDecisionStatus
      (Triage.AnalyzerDecision.mk "accept" [] [] [⟨"rar-stored"⟩]) = "verified" ∧
    Triage.summarizeDecisionStatus
      (Triage.AnalyzerDecision.mk "reject" ["rar-encrypted"] [] []) = "blocked" ∧
    Triage.summarizeDecisionStatus
      (Triage.AnalyzerDecision.mk "accept" [] [] [⟨"sevenzip-untested"⟩])
      = "unverified_7z" := by
  refine ⟨?_, ?_, ?_⟩
  · exact (claim_C2_status_synthesis
      (Triage.AnalyzerDecision.mk "accept" [] [] [⟨"rar-stored"⟩])
      (by decide)).1.mpr ⟨rfl, by decide⟩
  · exact (claim_C2_status_synthesis
      (Triage.AnalyzerDecision.mk "reject" ["rar-encrypted"] [] [])
      (by decide)).2.1 (by decide)
  · have h := (claim_C2_status_synthesis
      (Triage.AnalyzerDecision.mk "accept" [] [] [⟨"sevenzip-untested"⟩])
      (by decide)).2.2 rfl (by decide)
    rw [h]
    decide

namespace Auth

/-- An inbound request as read by `src/middleware/auth.js`: method, path,
optional `params.token`, and the `authorization` / `x-addon-token` headers
(`none` = header absent). -/
structure AuthRequest where
  method : String
  path : String
  paramsToken : Option String
  authorization : Option String
  xAddonToken : Option String
deriving DecidableEq, Repr

inductive AuthOutcome where
  | next
  | unauthorized
deriving DecidableEq, Repr

/-- The route-name alternation of the path regex
`^\/([^\/]+)\/(manifest\.json|stream|nzb|easynews)(?:\b|\/)`: after the
candidate route word the next character must be absent or a non-word
character (`/` is non-word, so the `\/` alternative is subsumed). -/
def routeAltAt (tail : List Char) (alt : String) : Bool :=
  let low := tail.map Char.toLower
  alt.data.isPrefixOf low &&
    (match (low.drop alt.data.length).head? with
     | none => true
     | some c => !JsStr.isWordChar c)

def routeMatch (tail : List Char) : Bool :=
  routeAltAt tail "manifest.json" || routeAltAt tail "stream"
    || routeAltAt tail "nzb" || routeAltAt tail "easynews"

/-- The capture of `^\/([^\/]+)\/…`: the non-empty first path segment,
when the following segment starts with one of the route words. -/
def pathPrefixToken (path : String) : Option String :=
  match path.data with
  | '/' :: rest =>
    let tok := rest.takeWhile (fun c => c ≠ '/')
    if tok.isEmpty then none
    else
      match rest.drop tok.length with
      | '/' :: tail => if routeMatch tail then some ⟨tok⟩ else none
      | _ => none
  | _ => none

/-- `req.headers['authorization'] || req.headers['x-addon-token']`: a
missing or empty (falsy) authorization header falls back to the token
header. -/
def authHeaderValue (req : AuthRequest) : Option String :=
  match req.authorization with
  | some a => if a = "" then req.xAddonToken else some a
  | none => req.xAddonToken

/-- `src/middleware/auth.js:3-20`: `extractTokenFromRequest`. -/
def extractTokenFromRequest (req : AuthRequest) : String :=
  match pathPrefixToken req.path with
  | some t => JsStr.trim t
  | none =>
    match req.paramsToken with
    | some p => JsStr.trim p
    | none =>
      match authHeaderValue req with
      | some h =>
        match (JsStr.splitChar ' ' h.data).map (fun l => (⟨l⟩ : String)) with
        | [p0, p1] =>
          if JsStr.lower p0 = "token" then JsStr.trim p1 else JsStr.trim h
        | _ => JsStr.trim h
      | none => ""

/-- `src/middleware/auth.js:22-39`: `ensureSharedSecret` with the
configured `ADDON_SHARED_SECRET` passed explicitly; `next` means the
middleware hands the request to downstream handling. -/
def ensureSharedSecret (secret : String) (req : AuthRequest) : AuthOutcome :=
  let s := JsStr.trim secret
  if s = "" then .next
  else if req.method = "OPTIONS" then .next
  else
    let providedToken := extractTokenFromRequest req
    if providedToken = "" || providedToken ≠ s then .unauthorized
    else .next

end Auth

/-- C9 counterexample: with a configured secret, an `OPTIONS` request that
carries no token is passed through to downstream handling instead of
receiving a 401 — the middleware exempts CORS preflight requests. -/
theorem claim_C9_auth_counterexample :
    Auth.extractTokenFromRequest ⟨"OPTIONS", "/stream/movie/tt1.json", none, none, none⟩
      = "" ∧
    Auth.ensureSharedSecret "s3cret"
      ⟨"OPTIONS", "/stream/movie/tt1.json", none, none, none⟩ = .next := by
  decide

/-- C9 amended: when a shared secret is configured, every non-`OPTIONS`
request whose extracted token (path prefix, `token` route parameter, or
authorization headers) differs from the configured secret receives the 401
outcome and is never handed to downstream handling. -/
theorem claim_C9_auth_gate (secret : String) (req : Auth.AuthRequest)
    (hs : JsStr.trim secret ≠ "")
    (hm : req.method ≠ "OPTIONS")
    (ht : Auth.extractTokenFromRequest req ≠ JsStr.trim secret) :
    Auth.ensureSharedSecret secret req = .unauthorized := by
  unfold Auth.ensureSharedSecret
  rw [if_neg hs, if_neg hm, if_pos]
  by_cases he : Auth.extractTokenFromRequest req = ""
  · simp [he]
  · simp [he, ht]

/-- Witness for C9 amended: a GET request with a wrong bearer token is
rejected. -/
theorem claim_C9_auth_gate_witness :
    Auth.ensureSharedSecret "s3cret"
      ⟨"GET", "/stream/movie/tt1.json", none, some "token wrong", none⟩
      = .unauthorized :=
  claim_C9_auth_gate "s3cret"
    ⟨"GET", "/stream/movie/tt1.json", none, some "token wrong", none⟩
    (by decide) (by decide) (by decide)

namespace StreamProxy

/-- Response facts of `streamFileResponse` (`src/unnamed/part_007:582-670`)
relevant to range handling: HTTP status, `Content-Range` header,
`Content-Length` header, and the byte window handed to
`fs.createReadStream` (`none` when no stream is opened, as in the 416
branch). -/
structure RangeResponse where
  status : Nat
  contentRange : Option String
  contentLength : Option Int
  streamBounds : Option (Int × Int)
deriving DecidableEq, Repr

/-- `Content-Range: bytes ${start}-${end}/${totalSize}`. -/
def contentRangeValue (s e total : Int) : String :=
  "bytes " ++ toString s ++ "-" ++ toString e ++ "/" ++ toString total

/-- `Content-Range: bytes */${totalSize}`. -/
def contentRangeUnsatisfied (total : Int) : String :=
  "bytes */" ++ toString total

/-- The regex test `/^bytes=\d*-\d*$/` followed by
`split('=')[1].split('-')`: the two (possibly empty) digit strings. -/
def parseByteRangeSpec (l : List Char) : Option (List Char × List Char) :=
  if "bytes=".data.isPrefixOf l then
    let spec := l.drop 6
    let ds1 := spec.takeWhile Char.isDigit
    match spec.drop ds1.length with
    | '-' :: ds2 => if ds2.all Char.isDigit then some (ds1, ds2) else none
    | _ => none
  else none

/-- The body of `streamFileResponse` after a matched `Range` header, on the
two digit strings (`Number.parseInt` modelled exactly on digit strings; an
empty bound is falsy and leaves the default).  `end` defaults to
`totalSize - 1`, `start ≥ totalSize` yields 416, an over-long or inverted
end bound is clamped to end-of-file. -/
def applyByteRange (totalSize : Int) (ds1 ds2 : List Char) : RangeResponse :=
  let start : Int := if ds1.isEmpty then 0 else (JsStr.digitsToNat ds1 : Int)
  let endv : Int := if ds2.isEmpty then totalSize - 1 else (JsStr.digitsToNat ds2 : Int)
  if start ≥ totalSize then
    { status := 416, contentRange := some (contentRangeUnsatisfied totalSize),
      contentLength := none, streamBounds := none }
  else
    let endv := if endv ≥ totalSize || endv < start then totalSize - 1 else endv
    { status := 206, contentRange := some (contentRangeValue start endv totalSize),
      contentLength := some (endv - start + 1), streamBounds := some (start, endv) }

/-- `src/unnamed/part_007:582-670`: the range-relevant behaviour of
`streamFileResponse` on a GET request (`emulateHead = false`): a missing or
non-matching `Range` header streams the whole file with status 200. -/
def streamRangedResponse (totalSize : Int) (rangeHeader : Option String) : RangeResponse :=
  match (match rangeHeader with
         | some h => parseByteRangeSpec h.data
         | none => none) with
  | none =>
    { status := 200, contentRange := none, contentLength := some totalSize,
      streamBounds := some (0, totalSize - 1) }
  | some (ds1, ds2) => applyByteRange totalSize ds1 ds2

end StreamProxy

/-- C8: for a GET over a file of size `S ≥ 1` with `Range: bytes=a-b`: an
empty end bound streams to end-of-file; `a ≥ S` yields 416 with
`Content-Range: bytes */S`; and `Range: bytes=0-0` yields 206 with exactly
one byte, `Content-Range: bytes 0-0/S` and `Content-Length: 1`. -/
theorem claim_C8_range_semantics (S : Int) (hS : 1 ≤ S) :
    (∀ ds1 : List Char, ds1 ≠ [] → ds1.all Char.isDigit = true →
      (((JsStr.digitsToNat ds1 : Int) < S →
        (StreamProxy.applyByteRange S ds1 []).status = 206 ∧
        (StreamProxy.applyByteRange S ds1 []).streamBounds
          = some ((JsStr.digitsToNat ds1 : Int), S - 1)) ∧
       ((JsStr.digitsToNat ds1 : Int) ≥ S →
        (StreamProxy.applyByteRange S ds1 []).status = 416 ∧
        (StreamProxy.applyByteRange S ds1 []).contentRange
          = some (StreamProxy.contentRangeUnsatisfied S)))) ∧
    StreamProxy.streamRangedResponse S (some "bytes=0-0") =
      { status := 206, contentRange := some (StreamProxy.contentRangeValue 0 0 S),
        contentLength := some 1, streamBounds := some (0, 0) } := by
  constructor
  · intro ds1 hne hdig
    have hemp : ds1.isEmpty = false := by
      cases ds1 with
      | nil => exact absurd rfl hne
      | cons c l => rfl
    constructor
    · intro hlt
      have hges : ¬ ((JsStr.digitsToNat ds1 : Int) ≥ S) := not_le.mpr hlt
      unfold StreamProxy.applyByteRange
      rw [if_neg (by simp [hemp]; omega)]
      have hcl : (if (S - 1 ≥ S || S - 1 < (JsStr.digitsToNat ds1 : Int)) = true
          then S - 1 else S - 1) = S - 1 := by
        split <;> rfl
      simp [hemp]
    · intro hge
      unfold StreamProxy.applyByteRange
      rw [if_pos (by simp [hemp]; omega)]
      exact ⟨rfl, rfl⟩
  · have hp : StreamProxy.parseByteRangeSpec ("bytes=0-0".data) = some (['0'], ['0']) := by
      decide
    unfold StreamProxy.streamRangedResponse
    simp only [hp]
    unfold StreamProxy.applyByteRange
    rw [if_neg (by simp [JsStr.digitsToNat]; omega)]
    simp [JsStr.digitsToNat]
    rw [if_neg (by omega : ¬ S ≤ 0)]
    exact ⟨rfl, by omega⟩

/-- Witness for C8 at concrete sizes: `bytes=5-` over 10 bytes streams
5..9 with 206, `bytes=5-` over 3 bytes is 416, and `bytes=0-0` over 7
bytes returns one byte. -/
theorem claim_C8_range_semantics_witness :
    ((StreamProxy.applyByteRange 10 ['5'] []).status = 206 ∧
      (StreamProxy.applyByteRange 10 ['5'] []).streamBounds = some (5, 9)) ∧
    ((StreamProxy.applyByteRange 3 ['5'] []).status = 416 ∧
      (StreamProxy.applyByteRange 3 ['5'] []).contentRange
        = some (StreamProxy.contentRangeUnsatisfied 3)) ∧
    StreamProxy.streamRangedResponse 7 (some "bytes=0-0") =
      { status := 206, contentRange := some (StreamProxy.contentRangeValue 0 0 7),
        contentLength := some 1, streamBounds := some (0, 0) } := by
  refine ⟨?_, ?_, ?_⟩
  · have h := (((claim_C8_range_semantics 10 (by decide)).1 ['5']
      (by decide) (by decide)).1 (by decide))
    exact ⟨h.1, by rw [h.2]; decide⟩
  · exact ((claim_C8_range_semantics 3 (by decide)).1 ['5']
      (by decide) (by decide)).2 (by decide)
  · exact (claim_C8_range_semantics 7 (by decide)).2

namespace StreamCache

/-- Configuration of the response cache (`src/cache/streamCache.js`):
`STREAM_CACHE_TTL_MS` (≥ 0; 0 disables expiry), `STREAM_CACHE_MAX_BYTES`
(> 0 by construction) and `STREAM_CACHE_MAX_ENTRIES` (constant 1000). -/
structure CacheConfig where
  ttlMs : Int
  maxBytes : Int
  maxEntries : Int
deriving DecidableEq, Repr

/-- One stored entry: its estimated serialized size
(`estimateCacheEntrySize`, taken as an input of the model) and expiry
instant (`null` when the TTL is disabled). -/
structure CacheEntry where
  size : Int
  expiresAt : Option Int
deriving DecidableEq, Repr

/-- The module state: the `Map` in insertion order plus the running
`streamCacheBytes` counter. -/
structure CacheState where
  entries : List (String × CacheEntry)
  bytes : Int
deriving DecidableEq, Repr

def emptyState : CacheState := ⟨[], 0⟩

/-- `entry.expiresAt && entry.expiresAt <= now`. -/
def isExpired (e : CacheEntry) (now : Int) : Bool :=
  match e.expiresAt with
  | some t => t ≤ now
  | none => false

def assocFind (entries : List (String × CacheEntry)) (key : String) : Option CacheEntry :=
  match entries with
  | [] => none
  | (k, v) :: rest => if k = key then some v else assocFind rest key

/-- `Map.delete`: removes the (unique) binding of `key`. -/
def assocErase (entries : List (String × CacheEntry)) (key : String) :
    List (String × CacheEntry) :=
  match entries with
  | [] => []
  | (k, v) :: rest => if k = key then rest else (k, v) :: assocErase rest key

def sumSizes (entries : List (String × CacheEntry)) : Int :=
  (entries.map (fun e => e.2.size)).sum

/-- The expiry sweep of `cleanupStreamCache` (`for … of entries` deleting
expired entries and subtracting their sizes). -/
def removeExpired (now : Int) (st : CacheState) : CacheState :=
  { entries := st.entries.filter (fun e => !isExpired e.2 now),
    bytes := st.bytes - sumSizes (st.entries.filter (fun e => isExpired e.2 now)) }

/-- The `while` loop of `cleanupStreamCache`: evict the oldest entry while
either limit is exceeded (`break` when the map is empty). -/
def evictFifo (cfg : CacheConfig) :
    List (String × CacheEntry) → Int → List (String × CacheEntry) × Int
  | [], bytes => ([], bytes)
  | e :: rest, bytes =>
    if (cfg.maxBytes > 0 && bytes > cfg.maxBytes)
        || (cfg.maxEntries > 0 && ((e :: rest).length : Int) > cfg.maxEntries) then
      evictFifo cfg rest (bytes - e.2.size)
    else (e :: rest, bytes)

/-- `src/cache/streamCache.js:28-52`: `cleanupStreamCache`. -/
def cleanupStreamCache (cfg : CacheConfig) (now : Int) (st : CacheState) : CacheState :=
  if st.entries.isEmpty then st
  else
    let st1 := if cfg.ttlMs > 0 then removeExpired now st else st
    let ev := evictFifo cfg st1.entries st1.bytes
    ⟨ev.1, ev.2⟩

/-- `src/cache/streamCache.js`: `getStreamCacheEntry` (returns the hit and
the updated state). -/
def getStreamCacheEntry (cfg : CacheConfig) (key : String) (now : Int)
    (st : CacheState) : Option CacheEntry × CacheState :=
  if key = "" ∨ cfg.maxEntries ≤ 0 then (none, st)
  else
    let st1 := cleanupStreamCache cfg now st
    match assocFind st1.entries key with
    | none => (none, st1)
    | some e =>
      if isExpired e now then
        (none, ⟨assocErase st1.entries key, st1.bytes - e.size⟩)
      else (some e, st1)

/-- `src/cache/streamCache.js:62-88`: `setStreamCacheEntry` with the
estimated entry size passed as input. -/
def setStreamCacheEntry (cfg : CacheConfig) (key : String) (size : Int) (now : Int)
    (st : CacheState) : CacheState :=
  if key = "" ∨ cfg.maxEntries ≤ 0 then st
  else if size ≤ 0 ∨ (cfg.maxBytes > 0 ∧ cfg.maxBytes < size) then st
  else
    let expiresAt := if cfg.ttlMs > 0 then some (now + cfg.ttlMs) else none
    let st1 :=
      match assocFind st.entries key with
      | some e => (⟨assocErase st.entries key, st.bytes - e.size⟩ : CacheState)
      | none => st
    cleanupStreamCache cfg now
      ⟨st1.entries ++ [(key, ⟨size, expiresAt⟩)], st1.bytes + size⟩

/-- The bookkeeping invariant: the byte counter equals the sum of stored
sizes, and every stored size is positive (insertions reject `size ≤ 0`). -/
def wfState (st : CacheState) : Prop :=
  st.bytes = sumSizes st.entries ∧ ∀ e ∈ st.entries, 0 < e.2.size

/-- Operations for stating the "any sequence of insertions and cleanups"
invariant. -/
inductive CacheOp where
  | insert (key : String) (size : Int) (now : Int)
  | cleanup (now : Int)
  | lookup (key : String) (now : Int)
deriving DecidableEq, Repr

def applyOp (cfg : CacheConfig) (st : CacheState) : CacheOp → CacheState
  | .insert k s n => setStreamCacheEntry cfg k s n st
  | .cleanup n => cleanupStreamCache cfg n st
  | .lookup k n => (getStreamCacheEntry cfg k n st).2

def applyOps (cfg : CacheConfig) (ops : List CacheOp) : CacheState :=
  ops.foldl (applyOp cfg) emptyState

end StreamCache

namespace StreamCache

theorem sumSizes_nil : sumSizes [] = 0 := rfl

theorem sumSizes_cons (e : String × CacheEntry) (l : List (String × CacheEntry)) :
    sumSizes (e :: l) = e.2.size + sumSizes l := by
  simp [sumSizes]

theorem sumSizes_append (l1 l2 : List (String × CacheEntry)) :
    sumSizes (l1 ++ l2) = sumSizes l1 + sumSizes l2 := by
  simp [sumSizes]

theorem sumSizes_filter_split (p : String × CacheEntry → Bool) :
    ∀ l : List (String × CacheEntry),
      sumSizes (l.filter p) + sumSizes (l.filter (fun e => !p e)) = sumSizes l
  | [] => rfl
  | e :: rest => by
    have ih := sumSizes_filter_split p rest
    by_cases h : p e <;> simp [List.filter_cons, h, sumSizes_cons] <;> omega

theorem assocFind_mem {key : String} {e : CacheEntry} :
    ∀ {l : List (String × CacheEntry)}, assocFind l key = some e → (key, e) ∈ l
  | [], h => by simp [assocFind] at h
  | (k, v) :: rest, h => by
    by_cases hk : k = key
    · rw [assocFind, if_pos hk] at h
      rw [Option.some_inj] at h
      subst hk
      subst h
      exact List.mem_cons_self _ _
    · rw [assocFind, if_neg hk] at h
      exact List.mem_cons_of_mem _ (assocFind_mem h)

theorem assocErase_sum {key : String} {e : CacheEntry} :
    ∀ {l : List (String × CacheEntry)}, assocFind l key = some e →
      sumSizes (assocErase l key) = sumSizes l - e.size
  | [], h => by simp [assocFind] at h
  | (k, v) :: rest, h => by
    by_cases hk : k = key
    · rw [assocFind, if_pos hk] at h
      rw [Option.some_inj] at h
      subst h
      rw [assocErase, if_pos hk, sumSizes_cons]
      simp
    · rw [assocFind, if_neg hk] at h
      rw [assocErase, if_neg hk, sumSizes_cons, sumSizes_cons, assocErase_sum h]
      omega

theorem assocErase_subset {key : String} {x : String × CacheEntry} :
    ∀ {l : List (String × CacheEntry)}, x ∈ assocErase l key → x ∈ l
  | [], h => by simp [assocErase] at h
  | (k, v) :: rest, h => by
    by_cases hk : k = key
    · rw [assocErase, if_pos hk] at h
      exact List.mem_cons_of_mem _ h
    · rw [assocErase, if_neg hk] at h
      rcases List.mem_cons.mp h with h1 | h1
      · exact h1 ▸ List.mem_cons_self _ _
      · exact List.mem_cons_of_mem _ (assocErase_subset h1)

theorem assocErase_length {key : String} :
    ∀ l : List (String × CacheEntry), (assocErase l key).length ≤ l.length
  | [] => le_refl _
  | (k, v) :: rest => by
    by_cases hk : k = key
    · rw [assocErase, if_pos hk]
      exact Nat.le_succ _
    · rw [assocErase, if_neg hk]
      exact Nat.succ_le_succ (assocErase_length rest)

end StreamCache

namespace StreamCache

/-- The eviction loop removes entries only from the front: its result is a
tail of the insertion-ordered list. -/
theorem evictFifo_drop (cfg : CacheConfig) :
    ∀ (entries : List (String × CacheEntry)) (bytes : Int),
      ∃ k, (evictFifo cfg entries bytes).1 = entries.drop k
  | [], bytes => ⟨0, rfl⟩
  | e :: rest, bytes => by
    rw [evictFifo]
    split
    · rcases evictFifo_drop cfg rest (bytes - e.2.size) with ⟨k, hk⟩
      exact ⟨k + 1, hk⟩
    · exact ⟨0, rfl⟩

/-- After the eviction loop (for positive limits): the byte counter matches
the remaining entries, everything remaining was already present, and both
limits hold. -/
theorem evictFifo_spec (cfg : CacheConfig) (hB : 0 < cfg.maxBytes)
    (hE : 0 < cfg.maxEntries) :
    ∀ (entries : List (String × CacheEntry)) (bytes : Int),
      bytes = sumSizes entries →
      (evictFifo cfg entries bytes).2 = sumSizes (evictFifo cfg entries bytes).1 ∧
      (∀ x ∈ (evictFifo cfg entries bytes).1, x ∈ entries) ∧
      (evictFifo cfg entries bytes).2 ≤ cfg.maxBytes ∧
      (((evictFifo cfg entries bytes).1.length : Int) ≤ cfg.maxEntries)
  | [], bytes, h => by
    rw [show evictFifo cfg [] bytes = ([], bytes) from rfl]
    refine ⟨h, fun x hx => hx, ?_, ?_⟩
    · rw [h, sumSizes_nil]
      omega
    · show ((List.length [] : Int) ≤ cfg.maxEntries)
      simp
      omega
  | e :: rest, bytes, h => by
    rw [evictFifo]
    split
    · have hrec := evictFifo_spec cfg hB hE rest (bytes - e.2.size)
        (by rw [h, sumSizes_cons]; omega)
      exact ⟨hrec.1, fun x hx => List.mem_cons_of_mem _ (hrec.2.1 x hx),
        hrec.2.2.1, hrec.2.2.2⟩
    · next hcond =>
      rw [Bool.or_eq_true, not_or, Bool.and_eq_true, Bool.and_eq_true] at hcond
      obtain ⟨hc1, hc2⟩ := hcond
      refine ⟨h, fun x hx => hx, ?_, ?_⟩
      · show bytes ≤ cfg.maxBytes
        by_contra hgt
        exact hc1 ⟨decide_eq_true hB, decide_eq_true (by omega)⟩
      · show (((e :: rest).length : Int) ≤ cfg.maxEntries)
        by_contra hgt
        exact hc2 ⟨decide_eq_true hE, decide_eq_true (by omega)⟩

/-- The most recently inserted entry survives the eviction loop whenever
its own size fits the byte cap (positive limits). -/
theorem evictFifo_keeps_last (cfg : CacheConfig) (hB : 0 < cfg.maxBytes)
    (hE : 0 < cfg.maxEntries) (x : String × CacheEntry)
    (hx : x.2.size ≤ cfg.maxBytes) :
    ∀ (l : List (String × CacheEntry)) (bytes : Int),
      bytes = sumSizes (l ++ [x]) →
      x ∈ (evictFifo cfg (l ++ [x]) bytes).1
  | [], bytes, h => by
    rw [List.nil_append] at h ⊢
    rw [evictFifo]
    rw [sumSizes_cons, sumSizes_nil] at h
    rw [if_neg]
    · exact List.mem_singleton_self x
    · simp only [Bool.or_eq_true, Bool.and_eq_true, decide_eq_true_eq, not_or, not_and]
      constructor
      · intro _
        omega
      · intro _
        simp
        omega
  | e :: l, bytes, h => by
    rw [List.cons_append] at h ⊢
    rw [evictFifo]
    split
    · exact evictFifo_keeps_last cfg hB hE x hx l (bytes - e.2.size)
        (by rw [h, sumSizes_cons]; omega)
    · exact List.mem_cons_of_mem _ (List.mem_append_right _ (List.mem_singleton_self x))

end StreamCache

namespace StreamCache

/-- Both limits hold and the bookkeeping is consistent. -/
def goodState (cfg : CacheConfig) (st : CacheState) : Prop :=
  wfState st ∧ st.bytes ≤ cfg.maxBytes ∧ ((st.entries.length : Int) ≤ cfg.maxEntries)

theorem removeExpired_wf (now : Int) (st : CacheState) (h : wfState st) :
    wfState (removeExpired now st) ∧
    (∀ x ∈ (removeExpired now st).entries, x ∈ st.entries) := by
  obtain ⟨hb, hpos⟩ := h
  refine ⟨⟨?_, ?_⟩, ?_⟩
  · show st.bytes - sumSizes (st.entries.filter (fun e => isExpired e.2 now))
      = sumSizes (st.entries.filter (fun e => !isExpired e.2 now))
    have := sumSizes_filter_split (fun e => isExpired e.2 now) st.entries
    omega
  · intro e he
    exact hpos e (List.mem_filter.mp he).1
  · intro x hx
    exact (List.mem_filter.mp hx).1

theorem cleanup_good (cfg : CacheConfig) (hB : 0 < cfg.maxBytes)
    (hE : 0 < cfg.maxEntries) (now : Int) (st : CacheState) (h : wfState st) :
    goodState cfg (cleanupStreamCache cfg now st) := by
  unfold cleanupStreamCache
  by_cases he : st.entries.isEmpty
  · rw [if_pos he]
    have hnil : st.entries = [] := by
      cases hst : st.entries with
      | nil => rfl
      | cons a l => rw [hst] at he; exact absurd he (by simp)
    refine ⟨h, ?_, ?_⟩
    · rw [h.1, hnil, sumSizes_nil]
      omega
    · rw [hnil]
      simp
      omega
  · rw [if_neg he]
    have hst1 : wfState (if cfg.ttlMs > 0 then removeExpired now st else st) ∧
        (∀ x ∈ (if cfg.ttlMs > 0 then removeExpired now st else st).entries,
          x ∈ st.entries) := by
      split
      · exact removeExpired_wf now st h
      · exact ⟨h, fun x hx => hx⟩
    have hev := evictFifo_spec cfg hB hE
      (if cfg.ttlMs > 0 then removeExpired now st else st).entries
      (if cfg.ttlMs > 0 then removeExpired now st else st).bytes hst1.1.1
    refine ⟨⟨hev.1, ?_⟩, hev.2.2.1, hev.2.2.2⟩
    intro e hee
    exact hst1.1.2 e (hev.2.1 e hee)

theorem set_good (cfg : CacheConfig) (hB : 0 < cfg.maxBytes)
    (hE : 0 < cfg.maxEntries) (key : String) (size now : Int) (st : CacheState)
    (h : goodState cfg st) :
    goodState cfg (setStreamCacheEntry cfg key size now st) := by
  unfold setStreamCacheEntry
  split
  · exact h
  · split
    · exact h
    · next hg1 hg2 =>
      rw [not_or] at hg2
      apply cleanup_good cfg hB hE
      constructor
      · show _ + size = sumSizes (_ ++ [(key, ⟨size, _⟩)])
        rw [sumSizes_append, sumSizes_cons, sumSizes_nil]
        rcases hf : assocFind st.entries key with _ | e
        · simp only [hf]
          rw [h.1.1]
          omega
        · simp only [hf]
          have := assocErase_sum hf
          have hb := h.1.1
          omega
      · intro x hx
        rcases List.mem_append.mp hx with hx1 | hx1
        · rcases hf : assocFind st.entries key with _ | e <;> simp only [hf] at hx1
          · exact h.1.2 x hx1
          · exact h.1.2 x (assocErase_subset hx1)
        · have hxe : x = (key, ⟨size, if cfg.ttlMs > 0 then some (now + cfg.ttlMs) else none⟩) := by
            simpa using hx1
          rw [hxe]
          show 0 < size
          omega

theorem get_good (cfg : CacheConfig) (hB : 0 < cfg.maxBytes)
    (hE : 0 < cfg.maxEntries) (key : String) (now : Int) (st : CacheState)
    (h : goodState cfg st) :
    goodState cfg (getStreamCacheEntry cfg key now st).2 := by
  unfold getStreamCacheEntry
  split
  · exact h
  · have hcl := cleanup_good cfg hB hE now st h.1
    rcases hf : assocFind (cleanupStreamCache cfg now st).entries key with _ | e
    · simp only [hf]
      exact hcl
    · simp only [hf]
      split
      · have hmem := assocFind_mem hf
        have hpos := hcl.1.2 _ hmem
        refine ⟨⟨?_, ?_⟩, ?_, ?_⟩
        · show (cleanupStreamCache cfg now st).bytes - e.size
            = sumSizes (assocErase (cleanupStreamCache cfg now st).entries key)
          have := assocErase_sum hf
          have hb := hcl.1.1
          omega
        · intro x hx
          exact hcl.1.2 x (assocErase_subset hx)
        · show (cleanupStreamCache cfg now st).bytes - e.size ≤ cfg.maxBytes
          have := hcl.2.1
          simp only [CacheEntry.mk.injEq] at hpos
          omega
        · show ((assocErase (cleanupStreamCache cfg now st).entries key).length : Int)
            ≤ cfg.maxEntries
          have h1 := @assocErase_length key (cleanupStreamCache cfg now st).entries
          have h2 := hcl.2.2
          have : ((assocErase (cleanupStreamCache cfg now st).entries key).length : Int)
              ≤ ((cleanupStreamCache cfg now st).entries.length : Int) := by
            exact_mod_cast h1
          omega
      · exact hcl

theorem emptyState_good (cfg : CacheConfig) (hB : 0 < cfg.maxBytes)
    (hE : 0 < cfg.maxEntries) : goodState cfg emptyState := by
  refine ⟨⟨rfl, by intro e he; simp [emptyState] at he⟩, ?_, ?_⟩
  · show (0 : Int) ≤ cfg.maxBytes
    omega
  · show ((List.length [] : Int) ≤ cfg.maxEntries)
    simp
    omega

theorem applyOps_good (cfg : CacheConfig) (hB : 0 < cfg.maxBytes)
    (hE : 0 < cfg.maxEntries) (ops : List CacheOp) :
    goodState cfg (applyOps cfg ops) := by
  have hgen : ∀ (l : List CacheOp) (st : CacheState), goodState cfg st →
      goodState cfg (l.foldl (applyOp cfg) st) := by
    intro l
    induction l with
    | nil => exact fun st h => h
    | cons op rest ih =>
      intro st h
      rw [List.foldl_cons]
      apply ih
      cases op with
      | insert k s n => exact set_good cfg hB hE k s n st h
      | cleanup n => exact cleanup_good cfg hB hE n st h.1
      | lookup k n => exact get_good cfg hB hE k n st h
  exact hgen ops emptyState (emptyState_good cfg hB hE)

end StreamCache

/-- C6: for the response cache with positive byte and entry limits: a
lookup never returns an entry past its TTL; an insertion larger than the
byte cap is rejected; eviction removes entries from the front of the
insertion order (FIFO); after any sequence of insertions, cleanups and
lookups from the empty cache both limits hold (the byte total never
exceeds the cap at all, hence never by more than one entry); and an
accepted insertion is present after its own cleanup, so a just-inserted
entry is never evicted (an entry that alone exceeds the cap is rejected
up front). -/
theorem claim_C6_stream_cache_invariants (cfg : StreamCache.CacheConfig)
    (hB : 0 < cfg.maxBytes) (hE : 0 < cfg.maxEntries) :
    (∀ (key : String) (now : Int) (st : StreamCache.CacheState)
        (e : StreamCache.CacheEntry) (st' : StreamCache.CacheState),
      StreamCache.getStreamCacheEntry cfg key now st = (some e, st') →
      StreamCache.isExpired e now = false) ∧
    (∀ (key : String) (size now : Int) (st : StreamCache.CacheState),
      cfg.maxBytes < size →
      StreamCache.setStreamCacheEntry cfg key size now st = st) ∧
    (∀ (entries : List (String × StreamCache.CacheEntry)) (bytes : Int),
      ∃ k, (StreamCache.evictFifo cfg entries bytes).1 = entries.drop k) ∧
    (∀ ops : List StreamCache.CacheOp,
      (StreamCache.applyOps cfg ops).bytes ≤ cfg.maxBytes ∧
      (((StreamCache.applyOps cfg ops).entries.length : Int) ≤ cfg.maxEntries)) ∧
    (∀ (key : String) (size now : Int) (st : StreamCache.CacheState),
      StreamCache.wfState st → key ≠ "" → 0 < size → size ≤ cfg.maxBytes →
      (key, ⟨size, if cfg.ttlMs > 0 then some (now + cfg.ttlMs) else none⟩)
        ∈ (StreamCache.setStreamCacheEntry cfg key size now st).entries) := by
  refine ⟨?_, ?_, ?_, ?_, ?_⟩
  · intro key now st e st' hres
    unfold StreamCache.getStreamCacheEntry at hres
    split at hres
    · simp at hres
    · rcases hf : StreamCache.assocFind
          (StreamCache.cleanupStreamCache cfg now st).entries key with _ | e'
      · simp only [hf] at hres
        simp at hres
      · simp only [hf] at hres
        split at hres
        · simp at hres
        · next hexp =>
          have he : e' = e := by
            simpa using congrArg Prod.fst hres
          rw [← he]
          exact Bool.not_eq_true _ ▸ hexp
  · intro key size now st hlt
    unfold StreamCache.setStreamCacheEntry
    split
    · rfl
    · rw [if_pos (Or.inr ⟨hB, hlt⟩)]
  · exact StreamCache.evictFifo_drop cfg
  · intro ops
    have h := StreamCache.applyOps_good cfg hB hE ops
    exact ⟨h.2.1, h.2.2⟩
  · intro key size now st hwf hk hpos hfit
    unfold StreamCache.setStreamCacheEntry
    rw [if_neg (by
      rw [not_or]
      exact ⟨hk, by omega⟩)]
    rw [if_neg (by
      rw [not_or]
      constructor
      · omega
      · rw [not_and]
        intro _
        omega)]
    set x : String × StreamCache.CacheEntry :=
      (key, ⟨size, if cfg.ttlMs > 0 then some (now + cfg.ttlMs) else none⟩) with hxdef
    have hxnexp : StreamCache.isExpired x.2 now = false := by
      rw [hxdef]
      show StreamCache.isExpired ⟨size, _⟩ now = false
      unfold StreamCache.isExpired
      split
      · next t ht =>
        split at ht
        · next httl =>
          rw [Option.some_inj] at ht
          subst ht
          simp
          omega
        · exact absurd ht (by simp)
      · rfl
    set st1 : StreamCache.CacheState :=
      (match StreamCache.assocFind st.entries key with
       | some e => (⟨StreamCache.assocErase st.entries key,
           st.bytes - e.size⟩ : StreamCache.CacheState)
       | none => st) with hst1def
    have hst1wf : StreamCache.wfState st1 := by
      rw [hst1def]
      rcases hf : StreamCache.assocFind st.entries key with _ | e
      · exact hwf
      · constructor
        · show st.bytes - e.size = StreamCache.sumSizes (StreamCache.assocErase st.entries key)
          have := StreamCache.assocErase_sum hf
          have hb := hwf.1
          omega
        · intro y hy
          exact hwf.2 y (StreamCache.assocErase_subset hy)
    show x ∈ (StreamCache.cleanupStreamCache cfg now
      ⟨st1.entries ++ [x], st1.bytes + size⟩).entries
    unfold StreamCache.cleanupStreamCache
    rw [if_neg (by simp)]
    have hfilter : ∀ p : String × StreamCache.CacheEntry → Bool, p x = true →
        (st1.entries ++ [x]).filter p = st1.entries.filter p ++ [x] := by
      intro p hp
      rw [List.filter_append]
      congr 1
      simp [hp]
    have hwf2 : StreamCache.wfState ⟨st1.entries ++ [x], st1.bytes + size⟩ := by
      constructor
      · show st1.bytes + size = StreamCache.sumSizes (st1.entries ++ [x])
        rw [StreamCache.sumSizes_append, StreamCache.sumSizes_cons,
          StreamCache.sumSizes_nil, hst1wf.1]
        show _ = _ + (x.2.size + 0)
        rw [hxdef]
        show _ = _ + (size + 0)
        omega
      · intro y hy
        rcases List.mem_append.mp hy with hy1 | hy1
        · exact hst1wf.2 y hy1
        · have : y = x := by simpa using hy1
          rw [this, hxdef]
          show 0 < size
          omega
    split
    · next httl =>
      have hre := StreamCache.removeExpired_wf now _ hwf2
      have hentries : (StreamCache.removeExpired now
          ⟨st1.entries ++ [x], st1.bytes + size⟩).entries
          = st1.entries.filter (fun e => !StreamCache.isExpired e.2 now) ++ [x] := by
        show (st1.entries ++ [x]).filter _ = _
        exact hfilter _ (by rw [hxnexp]; rfl)
      have hb := hre.1.1
      rw [hentries] at hb
      have := StreamCache.evictFifo_keeps_last cfg hB hE x
        (by rw [hxdef]; exact hfit)
        (st1.entries.filter (fun e => !StreamCache.isExpired e.2 now))
        (StreamCache.removeExpired now ⟨st1.entries ++ [x], st1.bytes + size⟩).bytes
        hb
      show x ∈ (StreamCache.evictFifo cfg _ _).1
      rw [hentries]
      exact this
    · have := StreamCache.evictFifo_keeps_last cfg hB hE x
        (by rw [hxdef]; exact hfit) st1.entries
        (st1.bytes + size) hwf2.1
      exact this

/-- Witness for C6 at a concrete configuration (cap 100 bytes, 2 entries,
TTL 60 s): a live hit is unexpired, an oversized insert is rejected, FIFO
eviction drops a front entry, limits hold after a concrete op sequence,
and a fresh insert is present. -/
theorem claim_C6_stream_cache_invariants_witness :
    StreamCache.isExpired ⟨5, some 50⟩ 10 = false ∧
    StreamCache.setStreamCacheEntry ⟨60000, 100, 2⟩ "k" 200 0 StreamCache.emptyState
      = StreamCache.emptyState ∧
    (∃ k, (StreamCache.evictFifo ⟨60000, 100, 2⟩
      [("a", ⟨80, none⟩), ("b", ⟨30, none⟩)] 110).1
      = List.drop k [("a", ⟨80, none⟩), ("b", ⟨30, none⟩)]) ∧
    ((StreamCache.applyOps ⟨60000, 100, 2⟩
      [.insert "a" 80 0, .insert "b" 30 1, .cleanup 2]).bytes ≤ 100 ∧
     (((StreamCache.applyOps ⟨60000, 100, 2⟩
      [.insert "a" 80 0, .insert "b" 30 1, .cleanup 2]).entries.length : Int) ≤ 2)) ∧
    ("k", (⟨5, some 60000⟩ : StreamCache.CacheEntry))
      ∈ (StreamCache.setStreamCacheEntry ⟨60000, 100, 2⟩ "k" 5 0
          StreamCache.emptyState).entries := by
  have h := claim_C6_stream_cache_invariants ⟨60000, 100, 2⟩ (by decide) (by decide)
  refine ⟨?_, ?_, ?_, ?_, ?_⟩
  · exact h.1 "k" 10 ⟨[("k", ⟨5, some 50⟩)], 5⟩ ⟨5, some 50⟩
      ⟨[("k", ⟨5, some 50⟩)], 5⟩ (by decide)
  · exact h.2.1 "k" 200 0 StreamCache.emptyState (by decide)
  · exact h.2.2.1 [("a", ⟨80, none⟩), ("b", ⟨30, none⟩)] 110
  · exact h.2.2.2.1 [.insert "a" 80 0, .insert "b" 30 1, .cleanup 2]
  · have := h.2.2.2.2 "k" 5 0 StreamCache.emptyState
      ⟨rfl, by intro e he; simp [StreamCache.emptyState] at he⟩
      (by decide) (by decide) (by decide)
    simpa using this

namespace NzbdavCache

/-- Per-key entry of the mount-handle cache
(`src/unnamed/part_006:157-199`): `pending` holds the shared build future
(identified by a number), `ready` the mount data, `failed` the stored
error; `ready`/`failed` carry an expiry instant when
`NZBDAV_CACHE_TTL_MS > 0`. -/
inductive MountEntry where
  | pending (fid : Nat)
  | ready (data : Nat) (expiresAt : Option Int)
  | failed (errId : Nat) (expiresAt : Option Int)
deriving DecidableEq, Repr

/-- Per-key cache state plus the count of mount-builder invocations. -/
structure MountState where
  entry : Option MountEntry
  builderCalls : Nat
deriving DecidableEq, Repr

/-- What one `getOrCreateNzbdavStream` caller observes: it started the
build (and awaits its future), awaits an existing pending future, got the
ready data, or was thrown the stored deterministic failure. -/
inductive MountResult where
  | startedBuild (fid : Nat)
  | awaitedFuture (fid : Nat)
  | returnedReady (data : Nat)
  | threwStored (errId : Nat)
deriving DecidableEq, Repr

/-- `cleanupNzbdavCache` restricted to one key: drop an entry whose
`expiresAt` has passed (no-op when the TTL is disabled; `pending` entries
carry no expiry). -/
def cleanupEntry (ttl now : Int) (entry : Option MountEntry) : Option MountEntry :=
  if ttl ≤ 0 then entry
  else
    match entry with
    | some (.ready _ (some t)) => if t ≤ now then none else entry
    | some (.failed _ (some t)) => if t ≤ now then none else entry
    | _ => entry

/-- The synchronous prefix of `getOrCreateNzbdavStream`: cleanup, then
return ready data, await the pending future, throw the stored failure, or
invoke the builder once and publish the `pending` entry.  JavaScript runs
this prefix atomically (single-threaded to the first `await`). -/
def getOrCreateStep (ttl now : Int) (st : MountState) : MountState × MountResult :=
  match cleanupEntry ttl now st.entry with
  | some (.ready d x) => (⟨some (.ready d x), st.builderCalls⟩, .returnedReady d)
  | some (.pending fid) => (⟨some (.pending fid), st.builderCalls⟩, .awaitedFuture fid)
  | some (.failed err x) => (⟨some (.failed err x), st.builderCalls⟩, .threwStored err)
  | none =>
    (⟨some (.pending st.builderCalls), st.builderCalls + 1⟩,
      .startedBuild st.builderCalls)

/-- The builder-success continuation: the entry becomes `ready` with a TTL
expiry. -/
def completeSuccessStep (ttl now : Int) (data : Nat) (st : MountState) : MountState :=
  ⟨some (.ready data (if ttl > 0 then some (now + ttl) else none)), st.builderCalls⟩

/-- The `catch` handler: an `isNzbdavFailure` (deterministic) error is
pinned as `failed` for the TTL, any other error deletes the entry. -/
def completeFailureStep (ttl now : Int) (deterministic : Bool) (errId : Nat)
    (st : MountState) : MountState :=
  if deterministic then
    ⟨some (.failed errId (if ttl > 0 then some (now + ttl) else none)), st.builderCalls⟩
  else ⟨none, st.builderCalls⟩

/-- A burst of concurrent get-or-create requests for the same key, with no
builder completion in between. -/
def runRequests (ttl : Int) (st : MountState) : List Int → MountState × List MountResult
  | [] => (st, [])
  | t :: ts =>
    let s1 := getOrCreateStep ttl t st
    let s2 := runRequests ttl s1.1 ts
    (s2.1, s1.2 :: s2.2)

theorem runRequests_pending (ttl : Int) (f : Nat) (bc : Nat) :
    ∀ ts : List Int,
      runRequests ttl ⟨some (.pending f), bc⟩ ts
        = (⟨some (.pending f), bc⟩, ts.map (fun _ => .awaitedFuture f))
  | [] => rfl
  | t :: ts => by
    have hcl : cleanupEntry ttl t
        ((⟨some (.pending f), bc⟩ : MountState).entry) = some (.pending f) := by
      show cleanupEntry ttl t (some (.pending f)) = some (.pending f)
      unfold cleanupEntry
      split <;> rfl
    have hstep : getOrCreateStep ttl t ⟨some (.pending f), bc⟩
        = (⟨some (.pending f), bc⟩, .awaitedFuture f) := by
      unfold getOrCreateStep
      rw [hcl]
    rw [runRequests]
    simp only [hstep, runRequests_pending ttl f bc ts, List.map_cons]

end NzbdavCache

/-- C7: for the mount-handle cache with a positive TTL: any burst of
concurrent get-or-create requests for one key invokes the builder exactly
once and every other caller awaits the same future; a successful build
makes the entry `ready`; a failure not marked deterministic deletes the
entry so the next caller re-invokes the builder; a deterministic failure
pins the entry as `failed` until its TTL instant, during which callers
receive the stored error without a builder invocation. -/
theorem claim_C7_mount_single_flight (ttl : Int) (hT : 0 < ttl) :
    (∀ (st : NzbdavCache.MountState) (t : Int) (ts : List Int), st.entry = none →
      (NzbdavCache.runRequests ttl st (t :: ts)).1.builderCalls = st.builderCalls + 1 ∧
      (NzbdavCache.runRequests ttl st (t :: ts)).2
        = .startedBuild st.builderCalls
            :: ts.map (fun _ => .awaitedFuture st.builderCalls)) ∧
    (∀ (st : NzbdavCache.MountState) (now : Int) (d : Nat),
      (NzbdavCache.completeSuccessStep ttl now d st).entry
        = some (.ready d (some (now + ttl)))) ∧
    (∀ (st : NzbdavCache.MountState) (now : Int) (err : Nat),
      (NzbdavCache.completeFailureStep ttl now false err st).entry = none ∧
      ∀ t : Int,
        (NzbdavCache.getOrCreateStep ttl t
          (NzbdavCache.completeFailureStep ttl now false err st)).2
          = .startedBuild st.builderCalls ∧
        (NzbdavCache.getOrCreateStep ttl t
          (NzbdavCache.completeFailureStep ttl now false err st)).1.builderCalls
          = st.builderCalls + 1) ∧
    (∀ (st : NzbdavCache.MountState) (now : Int) (err : Nat),
      (NzbdavCache.completeFailureStep ttl now true err st).entry
        = some (.failed err (some (now + ttl))) ∧
      ∀ t : Int, t < now + ttl →
        (NzbdavCache.getOrCreateStep ttl t
          (NzbdavCache.completeFailureStep ttl now true err st)).2
          = .threwStored err ∧
        (NzbdavCache.getOrCreateStep ttl t
          (NzbdavCache.completeFailureStep ttl now true err st)).1.builderCalls
          = st.builderCalls) := by
  refine ⟨?_, ?_, ?_, ?_⟩
  · intro st t ts hnone
    have hcl : NzbdavCache.cleanupEntry ttl t st.entry = none := by
      rw [hnone]
      unfold NzbdavCache.cleanupEntry
      split <;> rfl
    have hstep : NzbdavCache.getOrCreateStep ttl t st
        = (⟨some (.pending st.builderCalls), st.builderCalls + 1⟩,
            .startedBuild st.builderCalls) := by
      unfold NzbdavCache.getOrCreateStep
      rw [hcl]
    constructor
    · rw [NzbdavCache.runRequests]
      simp only [hstep, NzbdavCache.runRequests_pending]
    · rw [NzbdavCache.runRequests]
      simp only [hstep, NzbdavCache.runRequests_pending]
  · intro st now d
    unfold NzbdavCache.completeSuccessStep
    rw [if_pos hT]
  · intro st now err
    refine ⟨rfl, ?_⟩
    intro t
    have hcl : NzbdavCache.cleanupEntry ttl t
        (NzbdavCache.completeFailureStep ttl now false err st).entry = none := by
      show NzbdavCache.cleanupEntry ttl t none = none
      unfold NzbdavCache.cleanupEntry
      split <;> rfl
    constructor
    · unfold NzbdavCache.getOrCreateStep
      rw [hcl]
      rfl
    · unfold NzbdavCache.getOrCreateStep
      rw [hcl]
      rfl
  · intro st now err
    have he : (NzbdavCache.completeFailureStep ttl now true err st).entry
        = some (.failed err (some (now + ttl))) := by
      show some (NzbdavCache.MountEntry.failed err
          (if ttl > 0 then some (now + ttl) else none))
        = some (NzbdavCache.MountEntry.failed err (some (now + ttl)))
      rw [if_pos hT]
    refine ⟨he, ?_⟩
    intro t hlt
    have hcl : NzbdavCache.cleanupEntry ttl t
        (NzbdavCache.completeFailureStep ttl now true err st).entry
        = some (.failed err (some (now + ttl))) := by
      rw [he]
      unfold NzbdavCache.cleanupEntry
      rw [if_neg (by omega)]
      show (if now + ttl ≤ t then none
        else some (NzbdavCache.MountEntry.failed err (some (now + ttl))))
        = some (NzbdavCache.MountEntry.failed err (some (now + ttl)))
      rw [if_neg (by omega)]
    constructor
    · unfold NzbdavCache.getOrCreateStep
      rw [hcl]
      try rfl
    · unfold NzbdavCache.getOrCreateStep
      rw [hcl]
      try rfl

/-- Witness for C7: three concurrent requests from the empty state, a
success, a transient failure followed by a retry, and a pinned
deterministic failure read back before its TTL instant. -/
theorem claim_C7_mount_single_flight_witness :
    ((NzbdavCache.runRequests 60000 ⟨none, 0⟩ [0, 1, 2]).1.builderCalls = 1 ∧
      (NzbdavCache.runRequests 60000 ⟨none, 0⟩ [0, 1, 2]).2
        = [.startedBuild 0, .awaitedFuture 0, .awaitedFuture 0]) ∧
    (NzbdavCache.completeSuccessStep 60000 5 42 ⟨some (.pending 0), 1⟩).entry
      = some (.ready 42 (some 60005)) ∧
    ((NzbdavCache.getOrCreateStep 60000 10
        (NzbdavCache.completeFailureStep 60000 5 false 7 ⟨some (.pending 0), 1⟩)).2
      = .startedBuild 1) ∧
    ((NzbdavCache.getOrCreateStep 60000 10
        (NzbdavCache.completeFailureStep 60000 5 true 7 ⟨some (.pending 0), 1⟩)).2
      = .threwStored 7) := by
  have h := claim_C7_mount_single_flight 60000 (by decide)
  refine ⟨?_, ?_, ?_, ?_⟩
  · have h1 := h.1 ⟨none, 0⟩ 0 [1, 2] rfl
    exact ⟨h1.1, h1.2⟩
  · have h2 := h.2.1 ⟨some (.pending 0), 1⟩ 5 42
    simpa using h2
  · exact ((h.2.2.1 ⟨some (.pending 0), 1⟩ 5 7).2 10).1
  · exact ((h.2.2.2 ⟨some (.pending 0), 1⟩ 5 7).2 10 (by decide)).1

namespace TriageRun

/-- One selected candidate of `triageAndRank`
(`src/unnamed/part_006:383-660`); only its download URL (the decision key)
matters to the modelled claim. -/
structure TriageCandidate where
  downloadUrl : String
deriving DecidableEq, Repr

/-- The fields of a stored per-candidate decision read by the claim. -/
structure TriageOutcomeRec where
  status : String
  blockers : List String
  warnings : List String
deriving DecidableEq, Repr

/-- Outcome of `triageNzbs` for one downloaded payload: the `withTimeout`
deadline fired, the analysis threw, it returned no decision, or it
returned an analyzer decision. -/
inductive AnalysisOutcome where
  | analysisTimeout
  | analysisError (msg : String)
  | noDecision
  | analyzed (d : Triage.AnalyzerDecision)
deriving DecidableEq, Repr

/-- Outcome of the NZB download for one candidate. -/
inductive FetchOutcome where
  | fetchError (msg : String)
  | payload (a : AnalysisOutcome)
deriving DecidableEq, Repr

/-- Oracle for one candidate: the elapsed time `Date.now() - startTs`
observed at its budget check, and what its download/analysis would do.
These are the inputs the worker loop reads from the outside world. -/
structure CandidateOracle where
  elapsedAtCheck : Int
  outcome : FetchOutcome
deriving DecidableEq, Repr

/-- Loop state: the decision map in insertion order, the shared `timedOut`
flag and `evaluatedCount`. -/
structure RunState where
  decisions : List (String × TriageOutcomeRec)
  timedOut : Bool
  evaluatedCount : Nat
deriving DecidableEq, Repr

/-- `makeTimeoutDecision`. -/
def makeTimeoutDecision : TriageOutcomeRec :=
  ⟨"error", ["triage-error"], ["Triage timed out"]⟩

/-- The `fetch-error` decision of the download `catch` handler. -/
def makeFetchErrorDecision : TriageOutcomeRec :=
  ⟨"fetch-error", ["fetch-error"], []⟩

def findDecision (l : List (String × TriageOutcomeRec)) (k : String) :
    Option TriageOutcomeRec :=
  match l with
  | [] => none
  | (k', v) :: rest => if k' = k then some v else findDecision rest k

/-- `decisionMap.has(url)`. -/
def hasDecision (l : List (String × TriageOutcomeRec)) (k : String) : Bool :=
  (findDecision l k).isSome

/-- The worker loop of `triageAndRank` (`src/unnamed/part_006:485-633`),
sequentialized: the JavaScript workers interleave only at awaits, and once
`timedOut` is set every worker returns at the top of its loop without
dequeuing further candidates. -/
def runLoop (timeBudgetMs : Int) :
    List (TriageCandidate × CandidateOracle) → RunState → RunState
  | [], st => st
  | (c, o) :: rest, st =>
    if st.timedOut then st
    else if hasDecision st.decisions c.downloadUrl then runLoop timeBudgetMs rest st
    else if o.elapsedAtCheck ≥ timeBudgetMs then
      runLoop timeBudgetMs rest
        { st with
          timedOut := true
          decisions := st.decisions ++ [(c.downloadUrl, makeTimeoutDecision)] }
    else
      match o.outcome with
      | .fetchError _ =>
        runLoop timeBudgetMs rest
          { st with decisions := st.decisions
              ++ [(c.downloadUrl, makeFetchErrorDecision)] }
      | .payload a =>
        match a with
        | .analysisTimeout =>
          runLoop timeBudgetMs rest
            { st with
              timedOut := true
              decisions := st.decisions ++ [(c.downloadUrl, makeTimeoutDecision)] }
        | .analysisError msg =>
          runLoop timeBudgetMs rest
            { st with decisions := st.decisions
                ++ [(c.downloadUrl, ⟨"error", ["triage-error"], [msg]⟩)] }
        | .noDecision =>
          runLoop timeBudgetMs rest
            { st with decisions := st.decisions
                ++ [(c.downloadUrl, ⟨"error", ["triage-error"], ["No decision returned"]⟩)] }
        | .analyzed d =>
          runLoop timeBudgetMs rest
            { st with
              decisions := st.decisions
                ++ [(c.downloadUrl,
                      ⟨Triage.summarizeDecisionStatus d, d.blockers, d.warnings⟩)]
              evaluatedCount := st.evaluatedCount + 1 }

/-- The final `selectedCandidates.forEach` of `triageAndRank`: every
candidate still missing from the map receives `pending` when the run timed
out and `skipped` otherwise. -/
def finalizeTriage (cands : List TriageCandidate) (st : RunState) : RunState :=
  cands.foldl
    (fun acc c =>
      if hasDecision acc.decisions c.downloadUrl then acc
      else
        { acc with decisions := acc.decisions
            ++ [(c.downloadUrl,
                  ⟨if acc.timedOut then "pending" else "skipped", [], []⟩)] })
    st

/-- `triageAndRank` restricted to the decision bookkeeping: run the worker
loop then finalize; the function always returns a decision map (it never
raises). -/
def triageRunModel (timeBudgetMs : Int)
    (pairs : List (TriageCandidate × CandidateOracle)) : RunState :=
  finalizeTriage (pairs.map Prod.fst) (runLoop timeBudgetMs pairs ⟨[], false, 0⟩)

end TriageRun

namespace TriageRun

theorem findDecision_append_some {l1 : List (String × TriageOutcomeRec)} {k : String}
    {r : TriageOutcomeRec} (h : findDecision l1 k = some r)
    (l2 : List (String × TriageOutcomeRec)) :
    findDecision (l1 ++ l2) k = some r := by
  induction l1 with
  | nil => simp [findDecision] at h
  | cons e rest ih =>
    rw [List.cons_append, findDecision]
    rw [findDecision] at h
    split at h
    · next hk => rw [if_pos hk]; exact h
    · next hk => rw [if_neg hk]; exact ih h

theorem findDecision_append_none {l1 : List (String × TriageOutcomeRec)} {k : String}
    (h : findDecision l1 k = none) (l2 : List (String × TriageOutcomeRec)) :
    findDecision (l1 ++ l2) k = findDecision l2 k := by
  induction l1 with
  | nil => rfl
  | cons e rest ih =>
    rw [List.cons_append, findDecision]
    rw [findDecision] at h
    split at h
    · exact absurd h (by simp)
    · next hk => rw [if_neg hk]; exact ih h

theorem finalize_timedOut (cands : List TriageCandidate) :
    ∀ st : RunState, (finalizeTriage cands st).timedOut = st.timedOut := by
  induction cands with
  | nil => intro st; rfl
  | cons c rest ih =>
    intro st
    rw [finalizeTriage, List.foldl_cons]
    split
    · exact ih st
    · exact ih _

theorem finalize_evaluated (cands : List TriageCandidate) :
    ∀ st : RunState, (finalizeTriage cands st).evaluatedCount = st.evaluatedCount := by
  induction cands with
  | nil => intro st; rfl
  | cons c rest ih =>
    intro st
    rw [finalizeTriage, List.foldl_cons]
    split
    · exact ih st
    · exact ih _

theorem finalize_preserves (cands : List TriageCandidate) :
    ∀ (st : RunState) (k : String) (r : TriageOutcomeRec),
      findDecision st.decisions k = some r →
      findDecision (finalizeTriage cands st).decisions k = some r := by
  induction cands with
  | nil => intro st k r h; exact h
  | cons c rest ih =>
    intro st k r h
    rw [finalizeTriage, List.foldl_cons]
    split
    · exact ih st k r h
    · exact ih _ k r (findDecision_append_some h _)

theorem finalize_covers (cands : List TriageCandidate) :
    ∀ (st : RunState) (c : TriageCandidate), c ∈ cands →
      hasDecision (finalizeTriage cands st).decisions c.downloadUrl = true := by
  induction cands with
  | nil => intro st c h; simp at h
  | cons c0 rest ih =>
    intro st c hc
    rcases List.mem_cons.mp hc with hc1 | hc1
    · subst hc1
      rw [finalizeTriage, List.foldl_cons]
      split
      · next hhas =>
        rcases hf : findDecision st.decisions c.downloadUrl with _ | r
        · rw [hasDecision, hf] at hhas
          simp at hhas
        · have := finalize_preserves rest st c.downloadUrl r hf
          rw [finalizeTriage] at this
          rw [hasDecision, this]
          rfl
      · next hhas =>
        have hnone : findDecision st.decisions c.downloadUrl = none := by
          rcases hf : findDecision st.decisions c.downloadUrl with _ | r
          · rfl
          · rw [hasDecision, hf] at hhas
            simp at hhas
        have happ : findDecision
            (st.decisions ++ [(c.downloadUrl,
              (⟨if st.timedOut then "pending" else "skipped", [], []⟩ : TriageOutcomeRec))])
            c.downloadUrl
            = some ⟨if st.timedOut then "pending" else "skipped", [], []⟩ := by
          rw [findDecision_append_none hnone]
          rw [findDecision, if_pos rfl]
        have := finalize_preserves rest
          { st with decisions := st.decisions ++ [(c.downloadUrl,
              (⟨if st.timedOut then "pending" else "skipped", [], []⟩ : TriageOutcomeRec))] }
          c.downloadUrl _ happ
        rw [finalizeTriage] at this
        rw [hasDecision, this]
        rfl
    · rw [finalizeTriage, List.foldl_cons]
      split
      · exact ih st c hc1
      · exact ih _ c hc1

theorem finalize_pendingSkipped (cands : List TriageCandidate) :
    ∀ (st : RunState) (url : String),
      url ∈ cands.map (fun c => c.downloadUrl) →
      findDecision st.decisions url = none →
      findDecision (finalizeTriage cands st).decisions url
        = some ⟨if st.timedOut then "pending" else "skipped", [], []⟩ := by
  induction cands with
  | nil => intro st url h _; simp at h
  | cons c0 rest ih =>
    intro st url hmem hnone
    rw [finalizeTriage, List.foldl_cons]
    by_cases hc : c0.downloadUrl = url
    · rw [if_neg (by rw [hasDecision, hc, hnone]; simp)]
      subst hc
      have happ : findDecision
          (st.decisions ++ [(c0.downloadUrl,
            (⟨if st.timedOut then "pending" else "skipped", [], []⟩ : TriageOutcomeRec))])
          c0.downloadUrl
          = some ⟨if st.timedOut then "pending" else "skipped", [], []⟩ := by
        rw [findDecision_append_none hnone]
        rw [findDecision, if_pos rfl]
      have := finalize_preserves rest
        { st with decisions := st.decisions ++ [(c0.downloadUrl,
            (⟨if st.timedOut then "pending" else "skipped", [], []⟩ : TriageOutcomeRec))] }
        c0.downloadUrl _ happ
      rw [finalizeTriage] at this
      exact this
    · have hmem' : url ∈ rest.map (fun c => c.downloadUrl) := by
        rcases List.mem_map.mp hmem with ⟨c', hc', he⟩
        rcases List.mem_cons.mp hc' with h1 | h1
        · exact absurd (h1 ▸ he) hc
        · exact List.mem_map.mpr ⟨c', h1, he⟩
      split
      · exact ih st url hmem' hnone
      · have hnone2 : findDecision
            (st.decisions ++ [(c0.downloadUrl,
              (⟨if st.timedOut then "pending" else "skipped", [], []⟩ : TriageOutcomeRec))])
            url = none := by
          rw [findDecision_append_none hnone]
          rw [findDecision, if_neg hc]
          rfl
        exact ih _ url hmem' hnone2

theorem runLoop_timedOut (timeBudgetMs : Int)
    (pairs : List (TriageCandidate × CandidateOracle)) (st : RunState)
    (h : st.timedOut = true) : runLoop timeBudgetMs pairs st = st := by
  cases pairs with
  | nil => rfl
  | cons p rest =>
    obtain ⟨c, o⟩ := p
    rw [runLoop, if_pos h]

end TriageRun

/-- C5 counterexample: with a 1000 ms budget, the first candidate's budget
check observes 1000 ms elapsed; the run times out, no candidate is
evaluated, yet that candidate receives status `error` (blocker
`triage-error`, warning "Triage timed out"), not the claimed `pending`;
only the never-dequeued second candidate gets `pending`. -/
theorem claim_C5_triage_timeout_counterexample :
    (TriageRun.triageRunModel 1000
      [(⟨"u1"⟩, ⟨1000, .fetchError "x"⟩),
       (⟨"u2"⟩, ⟨0, .fetchError "x"⟩)]).evaluatedCount = 0 ∧
    (TriageRun.triageRunModel 1000
      [(⟨"u1"⟩, ⟨1000, .fetchError "x"⟩),
       (⟨"u2"⟩, ⟨0, .fetchError "x"⟩)]).timedOut = true ∧
    TriageRun.findDecision
      (TriageRun.triageRunModel 1000
        [(⟨"u1"⟩, ⟨1000, .fetchError "x"⟩),
         (⟨"u2"⟩, ⟨0, .fetchError "x"⟩)]).decisions "u1"
      = some TriageRun.makeTimeoutDecision ∧
    TriageRun.makeTimeoutDecision.status = "error" ∧
    TriageRun.makeTimeoutDecision.status ≠ "pending" ∧
    TriageRun.makeTimeoutDecision.status ≠ "skipped" ∧
    TriageRun.findDecision
      (TriageRun.triageRunModel 1000
        [(⟨"u1"⟩, ⟨1000, .fetchError "x"⟩),
         (⟨"u2"⟩, ⟨0, .fetchError "x"⟩)]).decisions "u2"
      = some ⟨"pending", [], []⟩ := by
  decide

/-- C5 amended: when the time budget expires no new candidates are started
(the loop returns immediately once `timedOut` is set, so in-flight work is
what completes); the candidate whose budget check observes the expiry
receives an `error` decision with blocker `triage-error` and warning
"Triage timed out" (not `pending`); every selected candidate still without
a decision after the loop receives `pending` when the run timed out and
`skipped` otherwise; and the run returns a decision map containing an
entry for every selected candidate rather than raising. -/
theorem claim_C5_triage_timeout (timeBudgetMs : Int) :
    (∀ (pairs : List (TriageRun.TriageCandidate × TriageRun.CandidateOracle))
        (c : TriageRun.TriageCandidate), c ∈ pairs.map Prod.fst →
      TriageRun.hasDecision
        (TriageRun.triageRunModel timeBudgetMs pairs).decisions c.downloadUrl
        = true) ∧
    (∀ (pairs : List (TriageRun.TriageCandidate × TriageRun.CandidateOracle))
        (st : TriageRun.RunState), st.timedOut = true →
      TriageRun.runLoop timeBudgetMs pairs st = st) ∧
    (∀ (c : TriageRun.TriageCandidate) (o : TriageRun.CandidateOracle)
        (rest : List (TriageRun.TriageCandidate × TriageRun.CandidateOracle))
        (st : TriageRun.RunState),
      st.timedOut = false →
      TriageRun.hasDecision st.decisions c.downloadUrl = false →
      o.elapsedAtCheck ≥ timeBudgetMs →
      TriageRun.runLoop timeBudgetMs ((c, o) :: rest) st
        = ⟨st.decisions ++ [(c.downloadUrl, TriageRun.makeTimeoutDecision)],
            true, st.evaluatedCount⟩) ∧
    (∀ (cands : List TriageRun.TriageCandidate) (st : TriageRun.RunState)
        (url : String),
      url ∈ cands.map (fun c => c.downloadUrl) →
      TriageRun.findDecision st.decisions url = none →
      TriageRun.findDecision (TriageRun.finalizeTriage cands st).decisions url
        = some ⟨if st.timedOut then "pending" else "skipped", [], []⟩) := by
  refine ⟨?_, ?_, ?_, ?_⟩
  · intro pairs c hc
    exact TriageRun.finalize_covers (pairs.map Prod.fst) _ c hc
  · intro pairs st h
    exact TriageRun.runLoop_timedOut timeBudgetMs pairs st h
  · intro c o rest st hto hhas helapsed
    rw [TriageRun.runLoop, if_neg (by rw [hto]; simp),
      if_neg (by rw [hhas]; simp), if_pos helapsed]
    exact TriageRun.runLoop_timedOut timeBudgetMs rest _ rfl
  · intro cands st url hmem hnone
    exact TriageRun.finalize_pendingSkipped cands st url hmem hnone

/-- Witness for C5 amended at concrete runs: totality on a one-candidate
run, an immediate return once timed out, the expiry-observing candidate's
error decision, and a pending finalization. -/
theorem claim_C5_triage_timeout_witness :
    TriageRun.hasDecision
      (TriageRun.triageRunModel 1000
        [(⟨"a"⟩, ⟨0, .payload .noDecision⟩)]).decisions "a" = true ∧
    TriageRun.runLoop 1000 [(⟨"b"⟩, ⟨0, .fetchError "m"⟩)] ⟨[], true, 0⟩
      = ⟨[], true, 0⟩ ∧
    TriageRun.runLoop 1000 [(⟨"c"⟩, ⟨1000, .fetchError "m"⟩)] ⟨[], false, 0⟩
      = ⟨[("c", TriageRun.makeTimeoutDecision)], true, 0⟩ ∧
    TriageRun.findDecision
      (TriageRun.finalizeTriage [⟨"d"⟩] ⟨[], true, 0⟩).decisions "d"
      = some ⟨"pending", [], []⟩ := by
  have h := claim_C5_triage_timeout 1000
  refine ⟨?_, ?_, ?_, ?_⟩
  · exact h.1 [(⟨"a"⟩, ⟨0, .payload .noDecision⟩)] ⟨"a"⟩ (by decide)
  · exact h.2.1 [(⟨"b"⟩, ⟨0, .fetchError "m"⟩)] ⟨[], true, 0⟩ rfl
  · exact h.2.2.1 ⟨"c"⟩ ⟨1000, .fetchError "m"⟩ [] ⟨[], false, 0⟩ rfl rfl (by decide)
  · have := h.2.2.2 [⟨"d"⟩] ⟨[], true, 0⟩ "d" (by decide) rfl
    simpa using this
